import Mathlib

/-!
Shallow embedding of the street-based-demographics repository
(src/match_tlid_utils.py, src/match_tlid.py, src/scripts/greedy_walk.py).

Python dictionaries are modelled as insertion-ordered association lists
over String keys (real dicts never hold duplicate keys, so first-match
operations below coincide with dict semantics).  Python floats appear
here only through Euclidean / Mahalanobis distances whose sole use in
the source is comparison with `<` against a running minimum (initially
np.inf); since x ↦ sqrt x is strictly monotone on the non-negative
reals, we represent each distance by its square together with an
explicit infinity, which preserves every comparison the source
performs.  Numeric payloads (attribute vectors, inverse-covariance
entries, coordinates) are modelled over ℤ: the algorithms only
subtract, multiply, add and compare these values, and every theorem
below is parametric in them, so an exact integral domain stands in for
the floating-point inputs.
-/

namespace StreetDemo

/-- Python dict lookup `d[k]` / `d.get(k)`: the value of the first entry
whose key equals `k` (keys are unique in a real dict). -/
def dget {α : Type} : List (String × α) → String → Option α
  | [], _ => none
  | p :: d, k => if p.1 = k then some p.2 else dget d k

/-- Python dict assignment `d[k] = v`: update in place if the key is
present (keeping its position), otherwise append a new entry. -/
def dset {α : Type} : List (String × α) → String → α → List (String × α)
  | [], k, v => [(k, v)]
  | p :: d, k, v => if p.1 = k then (k, v) :: d else p :: dset d k v

/-- Python `d.pop(k, default)`: remove the entry for `k` when present. -/
def dpop {α : Type} : List (String × α) → String → List (String × α)
  | [], _ => []
  | p :: d, k => if p.1 = k then dpop d k else p :: dpop d k

/-- Python `list(d)` / `d.keys()`. -/
def dkeys {α : Type} (d : List (String × α)) : List String :=
  d.map Prod.fst

/-- Python `k in d` (membership in the keys). -/
def dcontains {α : Type} (d : List (String × α)) (k : String) : Bool :=
  (dget d k).isSome

/-- Python `list.remove(x)`: delete the first occurrence of `x`;
`none` models the ValueError raised when `x` is absent. -/
def listRemove (xs : List String) (x : String) : Option (List String) :=
  match xs with
  | [] => none
  | y :: ys =>
    if y = x then some ys
    else (listRemove ys x).map (fun r => y :: r)

/-- Python `{**a, **b}`: entries of `b` override / extend `a`. -/
def dmerge {α : Type} (a b : List (String × α)) : List (String × α) :=
  b.foldl (fun acc p => dset acc p.1 p.2) a

/- ### Basic dictionary lemmas -/

theorem dget_cons {α : Type} (p : String × α) (d : List (String × α)) (k : String) :
    dget (p :: d) k = if p.1 = k then some p.2 else dget d k := rfl

theorem dget_dset {α : Type} (d : List (String × α)) (k k2 : String) (v : α) :
    dget (dset d k v) k2 = if k2 = k then some v else dget d k2 := by
  induction d with
  | nil =>
    by_cases h : k2 = k
    · simp [dset, dget, h]
    · simp [dset, dget, h, show ¬ k = k2 from fun he => h he.symm]
  | cons p t ih =>
    by_cases hp : p.1 = k
    · simp only [dset, if_pos hp, dget_cons]
      by_cases h2 : k2 = k
      · simp [h2]
      · rw [if_neg h2, if_neg (show ¬ (k, v).1 = k2 from fun he => h2 he.symm),
          if_neg (show ¬ p.1 = k2 from fun he => h2 (he.symm.trans hp))]
    · simp only [dset, if_neg hp, dget_cons]
      by_cases h2 : p.1 = k2
      · have : ¬ k2 = k := fun he => hp (h2.trans he)
        simp [h2, this]
      · simp [h2, ih]

theorem dget_dpop {α : Type} (d : List (String × α)) (k k2 : String) :
    dget (dpop d k) k2 = if k2 = k then none else dget d k2 := by
  induction d with
  | nil => by_cases h : k2 = k <;> simp [dpop, dget, h]
  | cons p t ih =>
    by_cases hp : p.1 = k
    · simp only [dpop, if_pos hp]
      rw [ih]
      by_cases h2 : k2 = k
      · simp [h2]
      · rw [if_neg h2, if_neg h2, dget_cons,
          if_neg (show ¬ p.1 = k2 from fun he => h2 (he.symm.trans hp))]
    · simp only [dpop, if_neg hp]
      by_cases h2 : p.1 = k2
      · have hne : ¬ k2 = k := fun he => hp (h2.trans he)
        simp [dget_cons, h2, hne]
      · simp [dget_cons, h2, ih]

theorem dcontains_iff {α : Type} (d : List (String × α)) (k : String) :
    dcontains d k = true ↔ ∃ v, dget d k = some v := by
  unfold dcontains
  cases h : dget d k <;> simp [h]

theorem mem_dkeys_iff {α : Type} (d : List (String × α)) (k : String) :
    k ∈ dkeys d ↔ ∃ v, dget d k = some v := by
  induction d with
  | nil => simp [dkeys, dget]
  | cons p t ih =>
    rw [dget_cons]
    by_cases h : p.1 = k
    · simp [dkeys, h]
    · simp only [dkeys, List.map_cons, List.mem_cons, if_neg h]
      constructor
      · rintro (he | hm)
        · exact absurd he.symm h
        · exact ih.mp hm
      · intro hv; exact Or.inr (ih.mpr hv)

theorem length_dset_of_contains {α : Type} (d : List (String × α)) (k : String) (v : α)
    (h : dcontains d k = true) : (dset d k v).length = d.length := by
  rw [dcontains_iff] at h
  obtain ⟨w, hw⟩ := h
  induction d with
  | nil => simp [dget] at hw
  | cons p t ih =>
    by_cases hp : p.1 = k
    · simp [dset, hp]
    · rw [dget_cons, if_neg hp] at hw
      simp [dset, hp, ih hw]

theorem length_dpop_le {α : Type} (d : List (String × α)) (k : String) :
    (dpop d k).length ≤ d.length := by
  induction d with
  | nil => simp [dpop]
  | cons p t ih =>
    by_cases hp : p.1 = k
    · simp only [dpop, if_pos hp]
      exact Nat.le_succ_of_le ih
    · simp only [dpop, if_neg hp, List.length_cons]
      exact Nat.succ_le_succ ih

theorem length_dpop_lt_of_contains {α : Type} (d : List (String × α)) (k : String)
    (h : dcontains d k = true) : (dpop d k).length < d.length := by
  rw [dcontains_iff] at h
  obtain ⟨v, hv⟩ := h
  induction d with
  | nil => simp [dget] at hv
  | cons p t ih =>
    by_cases hp : p.1 = k
    · simp only [dpop, if_pos hp, List.length_cons]
      exact Nat.lt_succ_of_le (length_dpop_le t k)
    · rw [dget_cons, if_neg hp] at hv
      simp only [dpop, if_neg hp, List.length_cons]
      exact Nat.succ_lt_succ (ih hv)

theorem dcontains_dset_self {α : Type} (d : List (String × α)) (k : String) (v : α) :
    dcontains (dset d k v) k = true := by
  rw [dcontains_iff, dget_dset]
  exact ⟨v, by simp⟩

theorem dkeys_nil_iff {α : Type} (d : List (String × α)) :
    dkeys d = [] ↔ d = [] := by
  cases d <;> simp [dkeys]

/- ### Distances (src/scripts/greedy_walk.py, src/match_tlid_utils.py)

The source computes float distances and compares them with `<` against a
minimum initialised to np.inf.  `Dist` represents such a value by its
exact squared magnitude or infinity; `distLt` is the float `<`
(np.inf < np.inf is False). -/

inductive Dist : Type
  | fin (q : ℤ)
  | inf
deriving DecidableEq, Repr

/-- Float `<` on distances: any finite value is below `inf`; `inf < inf`
is false (as for np.inf). -/
def distLt : Dist → Dist → Bool
  | Dist.fin a, Dist.fin b => a < b
  | Dist.fin _, Dist.inf => true
  | Dist.inf, _ => false

/-- Sum of squared per-coordinate differences: square of the Euclidean
norm of `xs - ys` (np.linalg.norm / np.sqrt(np.sum(...**2)) without the
final monotone square root). -/
def sumSqDiff (xs ys : List ℤ) : ℤ :=
  ((List.zipWith (fun a b => a - b) xs ys).map (fun z => z * z)).sum

/-- Square of the Mahalanobis distance: (x−y)ᵀ VI (x−y) for the
inverse-covariance matrix VI (scipy.spatial.distance.mahalanobis without
the final monotone square root). -/
def mahalSq (xs ys : List ℤ) (vi : List (List ℤ)) : ℤ :=
  let d := List.zipWith (fun a b => a - b) xs ys
  (List.zipWith (fun di row => di * (List.zipWith (fun m dj => m * dj) row d).sum) d vi).sum

/-- greedy_walk.euc_distance (lines 166-191).  The `data.loc[tlid_1,:]`
lookup sits OUTSIDE the try/except, so a missing row for `tlid_1`
propagates a KeyError (modelled as `none`); only a missing `tlid_2` row
is caught and turned into np.inf. -/
def euc_distance (tlid_1 tlid_2 : String) (data : List (String × List ℤ)) :
    Option Dist :=
  match dget data tlid_1 with
  | none => none
  | some point_1 =>
    match dget data tlid_2 with
    | none => some Dist.inf
    | some point_2 => some (Dist.fin (sumSqDiff point_1 point_2))

/-- greedy_walk.mahal_distance (lines 136-164), with the same
try/except placement as euc_distance. -/
def mahal_distance (tlid_1 tlid_2 : String) (data : List (String × List ℤ))
    (invcov_data : List (List ℤ)) : Option Dist :=
  match dget data tlid_1 with
  | none => none
  | some point_1 =>
    match dget data tlid_2 with
    | none => some Dist.inf
    | some point_2 => some (Dist.fin (mahalSq point_1 point_2 invcov_data))

/-- The walk's metric switch: 'e' chooses Euclidean, 'm' Mahalanobis
(greedy_walk.find_most_similar lines 228-233). -/
inductive Metric : Type
  | e
  | m
deriving DecidableEq, Repr

def metricDist (metric : Metric) (tlid_1 tlid_2 : String)
    (data : List (String × List ℤ)) (invcov_data : List (List ℤ)) : Option Dist :=
  match metric with
  | Metric.e => euc_distance tlid_1 tlid_2 data
  | Metric.m => mahal_distance tlid_1 tlid_2 data invcov_data

/-- The loop of greedy_walk.find_most_similar (lines 226-237).  Source
line 236 reads `dist = min_dist` — it overwrites the loop-local `dist`
instead of the minimum tracker, so `min_dist` is passed on UNCHANGED in
the branch that accepts a candidate.  `none` models a propagated
exception from the metric. -/
def fms_loop (tlid : String) (cands : List String) (data : List (String × List ℤ))
    (invcov_data : List (List ℤ)) (metric : Metric) (min_dist : Dist)
    (next_tlid : Option String) : Option (Option String) :=
  match cands with
  | [] => some next_tlid
  | contig_tlid :: rest =>
    match metricDist metric tlid contig_tlid data invcov_data with
    | none => none
    | some dist =>
      if distLt dist min_dist then
        fms_loop tlid rest data invcov_data metric min_dist (some contig_tlid)
      else
        fms_loop tlid rest data invcov_data metric min_dist next_tlid

/-- greedy_walk.find_most_similar (lines 193-238): iterate the segments
listed at `node` and return the last one accepted by the (buggy)
minimum test; outer `none` is a raised exception, inner `none` the
Python None returned when no candidate was accepted. -/
def find_most_similar (tlid node : String) (edge_node : List (String × List String))
    (data : List (String × List ℤ)) (invcov_data : List (List ℤ)) (metric : Metric) :
    Option (Option String) :=
  match dget edge_node node with
  | none => none
  | some cands => fms_loop tlid cands data invcov_data metric Dist.inf none

/- ### Geometric resolver (src/match_tlid_utils.py) -/

/-- A candidate geometry: `none` models the string marker returned by
find_edge_geo for a missing row; `some verts` a parsed LINESTRING. -/
abbrev Geom : Type := Option (List (ℤ × ℤ))

/-- match_tlid_utils.straight_line_distance (lines 198-212) squared:
np.sum((coord1 - coord2) ** 2) without the final monotone sqrt. -/
def straight_line_distance_sq (coord1 coord2 : ℤ × ℤ) : ℤ :=
  (coord1.1 - coord2.1) * (coord1.1 - coord2.1) +
    (coord1.2 - coord2.2) * (coord1.2 - coord2.2)

/-- The inner vertex loop of find_closest (lines 192-195): track the
minimum vertex distance and the segment achieving it. -/
def fc_vertex_loop (idx : String) (verts : List (ℤ × ℤ)) (point : ℤ × ℤ)
    (min_dist : Dist) (closest_line : Option String) : Dist × Option String :=
  match verts with
  | [] => (min_dist, closest_line)
  | vert :: rest =>
    if distLt (Dist.fin (straight_line_distance_sq vert point)) min_dist then
      fc_vertex_loop idx rest point
        (Dist.fin (straight_line_distance_sq vert point)) (some idx)
    else
      fc_vertex_loop idx rest point min_dist closest_line

/-- match_tlid_utils.find_closest (lines 172-196).  The `return
closest_line` on line 196 is indented INSIDE the `for idx, aline_wkt in
linedict.items()` loop, so the function returns after examining only
the FIRST entry of the dictionary (and returns None without looking
further when that first entry has no geometry); an empty dictionary
also yields None (the loop body never runs). -/
def find_closest (linedict : List (String × Geom)) (point : ℤ × ℤ) :
    Option String :=
  match linedict with
  | [] => none
  | (idx, aline_wkt) :: _ =>
    match aline_wkt with
    | none => none
    | some verts => (fc_vertex_loop idx verts point Dist.inf none).2

/- ### Candidate partitioner (src/match_tlid_utils.py) -/

/-- The body of the selection made by get_single_TLID_addresses (line
119): a candidate list qualifies when `len(candidates) == 1 and
candidates[0]` (the single entry is truthy, i.e. a non-empty string);
the qualifying value is `candidates[0]`.  The outer `Option` of the
argument models the isinstance(candidates, list) test on line 118 — a
merge miss leaves a non-list NaN cell, modelled as `none`. -/
def single_pick : Option (List String) → Option String
  | some [c] => if ¬ c = "" then some c else none
  | _ => none

/-- The selection made by get_multi_TLID_addresses (line 141):
`len(candidates) > 1`. -/
def multi_pick : Option (List String) → Option (List String)
  | some cands => if 1 < cands.length then some cands else none
  | _ => none

/-- One iteration of the dictionary-building loops in
get_single_TLID_addresses / get_multi_TLID_addresses: assign
`acc[id] = f candidates` when the selector accepts the row. -/
def dstep {α β : Type} (f : α → Option β) (acc : List (String × β))
    (p : String × α) : List (String × β) :=
  match f p.2 with
  | some b => dset acc p.1 b
  | none => acc

/-- match_tlid_utils.get_single_TLID_addresses (lines 100-121): keep the
addresses whose candidate set is a singleton list with a truthy entry,
mapping each to that entry. -/
def get_single_TLID_addresses (xwalk : List (String × Option (List String))) :
    List (String × String) :=
  xwalk.foldl (dstep single_pick) []

/-- match_tlid_utils.get_multi_TLID_addresses (lines 123-143): keep the
addresses whose candidate set is a list with more than one entry. -/
def get_multi_TLID_addresses (xwalk : List (String × Option (List String))) :
    List (String × List String) :=
  xwalk.foldl (dstep multi_pick) []

/- ### Geometry cache and the county matcher (src/match_tlid.py)

The file-reading half of the pipeline (import_data, import_xwalk,
merge_xwalk_addresses) is out of scope per spec §1; the matcher is
embedded from the dictionaries county_to_dicts derives from them:
the merged crosswalk as Address → candidate list (None for a merge
miss) and the edge table as TLID → line geometry. -/

/-- match_tlid_utils.find_edge_geo (lines 146-151): `edges.loc[id,
'geometry']` under try/except, the except returning the marker 'None'
(here the `none` of `Geom`). -/
def find_edge_geo (id : String) (edges : List (String × List (ℤ × ℤ))) : Geom :=
  match dget edges id with
  | some geo => geo
  | none => none

/-- match_tlid_utils.get_candidate_geoms (lines 153-169): for every
multi-candidate address, a dictionary from candidate TLID to its
geometry. -/
def get_candidate_geoms (multi_TLID_addresses : List (String × List String))
    (edges : List (String × List (ℤ × ℤ))) : List (String × List (String × Geom)) :=
  multi_TLID_addresses.foldl
    (fun geom_list p =>
      dset geom_list p.1
        (p.2.foldl (fun acc id => dset acc id (find_edge_geo id edges)) []))
    []

/-- match_tlid.match_an_address (lines 49-73).  `attributes` is a value
of the multi dictionary — which get_multi_TLID_addresses fills with the
raw candidate LIST — yet line 71 evaluates `attributes['LATITUDE']`:
indexing a list with a string raises TypeError, modelled as `none`.
(A missing id in geom_list would likewise raise, on line 70.) -/
def match_an_address (id : String) (attributes : List String)
    (geom_list : List (String × List (String × Geom))) :
    Option (String × Option String) :=
  match dget geom_list id with
  | none => none
  | some _ => none

/-- match_tlid.match_generator (lines 75-96): apply match_an_address to
every multi-candidate address and collect the results into a dict. -/
def match_generator (multi_match : List (String × List String))
    (geom_list : List (String × List (String × Geom))) :
    Option (List (String × Option String)) :=
  match multi_match with
  | [] => some []
  | p :: rest =>
    match match_an_address p.1 p.2 geom_list with
    | none => none
    | some r =>
      match match_generator rest geom_list with
      | none => none
      | some rs => some (dmerge [r] rs)

/-- match_tlid.match_county_tlid (lines 98-122), from the dictionary
stage onward: single and multi partitions, candidate geometries, the
generator over multi addresses, and the final `{**single,
**multi_results}` merge (single values are wrapped in `some` to share
one value type with the possibly-None multi results).  File output and
the printed counts are side effects outside the returned value. -/
def match_county_tlid (xwalk : List (String × Option (List String)))
    (edges : List (String × List (ℤ × ℤ))) :
    Option (List (String × Option String)) :=
  match match_generator (get_multi_TLID_addresses xwalk)
      (get_candidate_geoms (get_multi_TLID_addresses xwalk) edges) with
  | none => none
  | some multi_results =>
    some (dmerge ((get_single_TLID_addresses xwalk).map (fun p => (p.1, some p.2)))
      multi_results)

/- ### Street network graph builder (src/scripts/greedy_walk.py) -/

/-- Keep the first occurrence of each element, tracking the elements
already seen (Python's list(set(..)) materialises each distinct element
once; the concrete order inside a set is unspecified, so
first-occurrence order is taken as the model). -/
def dedupAux : List String → List String → List String
  | [], _ => []
  | x :: xs, seen =>
    if x ∈ seen then dedupAux xs seen else x :: dedupAux xs (x :: seen)

/-- One entry per distinct element, in first-occurrence order. -/
def dedupFirst (l : List String) : List String :=
  dedupAux l []

/-- Lexicographic comparison of characters by code point. -/
def chLt (c d : Char) : Bool := c.val < d.val

/-- Lexicographic comparison of strings by code point: the standard
string order (Python's `<` on str), written out over the character
lists so that it evaluates. -/
def strLtList : List Char → List Char → Bool
  | [], _ :: _ => true
  | _, [] => false
  | c :: cs, d :: ds =>
    if chLt c d then true else if chLt d c then false else strLtList cs ds

/-- Lexicographic `<` on strings. -/
def strLtB (a b : String) : Bool := strLtList a.data b.data

/-- Insert into an ascending list (pandas groupby sorts group keys). -/
def insertSorted (x : String) : List String → List String
  | [] => [x]
  | y :: ys => if strLtB x y then x :: y :: ys else y :: insertSorted x ys

/-- Ascending sort of the group keys, as pandas groupby produces. -/
def sortStr (l : List String) : List String :=
  l.foldr insertSorted []

/-- All values paired with key `k`, in row order (a pandas groupby
group). -/
def valuesOf (df : List (String × String)) (k : String) : List String :=
  df.filterMap (fun p => if p.1 = k then some p.2 else none)

/-- `df.groupby(first)[second].apply(list).to_dict()`: one entry per
distinct key (sorted ascending), holding that key's values in row
order. -/
def groupBy (df : List (String × String)) : List (String × List String) :=
  (sortStr (dedupFirst (df.map Prod.fst))).map (fun k => (k, valuesOf df k))

/-- A row of the TIGER edge table after load_roads: TLID with its from-
and to-node (the columns create_edge_node_df consumes). -/
structure EdgeRow : Type where
  tlid : String
  tnidf : String
  tnidt : String
deriving DecidableEq, Repr

/-- greedy_walk.create_edge_node_df (lines 40-72): the from-rows
(TLID, TNIDF) followed by the to-rows (TLID, TNIDT). -/
def create_edge_node_df (edges : List EdgeRow) : List (String × String) :=
  edges.map (fun e => (e.tlid, e.tnidf)) ++ edges.map (fun e => (e.tlid, e.tnidt))

/-- greedy_walk.create_node_dict (lines 75-93):
edge_node = groupby('TNID')['TLID'] with list→set→list deduplication,
nodes_from_edges = groupby('TLID')['TNID'] as plain lists. -/
def create_node_dict (edge_node_df : List (String × String)) :
    List (String × List String) × List (String × List String) :=
  ((groupBy (edge_node_df.map (fun p => (p.2, p.1)))).map
      (fun p => (p.1, dedupFirst p.2)),
    groupBy edge_node_df)

/- ### The greedy walk (src/scripts/greedy_walk.py walk_network) -/

/-- `random.choice(seq)`: the random source is modelled as the stream
of indices it consumes — pick `seq[r mod len]` for the next stream
element `r` (`none` models the IndexError on an empty sequence). -/
def randChoice {α : Type} (rand : List Nat) (xs : List α) :
    Option (α × List Nat) :=
  match xs with
  | [] => none
  | y :: ys => some (((y :: ys).getD (rand.headD 0 % (y :: ys).length) y), rand.tail)

/-- A row of the walk's attribute table `data`: the numeric feature
vector plus the FULLNAME column (generate_synthetic_data's output). -/
structure Row : Type where
  vec : List ℤ
  fullname : String
deriving DecidableEq, Repr

/-- `data.drop('FULLNAME', axis=1)` (walk_network line 275). -/
def only_vars (data : List (String × Row)) : List (String × List ℤ) :=
  data.map (fun p => (p.1, p.2.vec))

/-- The mutable state of walk_network's while loop. -/
structure WalkState : Type where
  edge_node : List (String × List String)
  nodes_from_edges : List (String × List String)
  nodes : List (String × Nat)
  num_paths : Nat
  cur_node : String
  cur_tlid : String
  rand : List Nat
deriving DecidableEq, Repr

/-- Observable outcome of walk_network: the decision table `nodes`
together with the printed `num_paths` count and the final mutable
dictionaries, or a propagated Python exception (`err`). -/
inductive WalkOut : Type
  | ok (nodes : List (String × Nat)) (num_paths : Nat)
      (edge_node nodes_from_edges : List (String × List String))
  | err
deriving DecidableEq, Repr

/-- Result of the restart search (walk_network lines 294-311). -/
inductive RestartOut : Type
  | done
  | found (edge_node : List (String × List String)) (next_node next_tlid : String)
      (rand : List Nat)
  | fail
deriving DecidableEq, Repr

/-- The inner `while len(edge_node[next_node]) == 0` loop of
walk_network (lines 297-309) together with the final choice of
`next_tlid`: pop empty nodes until one with unvisited segments is
found (`found`) or the graph is exhausted (`done`, the early return on
line 302).  On entry the filtered candidate list of `next_node` has
already been stored in `edge_node` (lines 295/306).  `fuel` bounds the
iterations of the model; `none` marks exhaustion and is shown
unreachable from the call below. -/
def restartLoop : Nat → List (String × List String) → List (String × List String) →
    String → List Nat → Option RestartOut
  | 0, _, _, _, _ => none
  | fuel + 1, edge_node, nodes_from_edges, next_node, rand =>
    match dget edge_node next_node with
    | none => some RestartOut.fail
    | some lst =>
      if lst.length = 0 then
        if (dpop edge_node next_node).length = 0 then some RestartOut.done
        else
          match randChoice rand (dkeys (dpop edge_node next_node)) with
          | none => some RestartOut.fail
          | some (n2, rand2) =>
            match dget (dpop edge_node next_node) n2 with
            | none => some RestartOut.fail
            | some l2 =>
              restartLoop fuel
                (dset (dpop edge_node next_node) n2
                  (l2.filter (fun t => dcontains nodes_from_edges t)))
                nodes_from_edges n2 rand2
      else
        match randChoice rand lst with
        | none => some RestartOut.fail
        | some (t, rand2) =>
          some (RestartOut.found edge_node next_node t rand2)

/-- One iteration of walk_network's main while loop (lines 278-352),
entered with `nodes_from_edges` non-empty. -/
inductive StepRes : Type
  | next (st : WalkState)
  | stop (out : WalkOut)
deriving DecidableEq, Repr

/-- The restart branch of walk_network's loop body (lines 288-311),
entered when the current node has no unvisited segments left:
`en1` is edge_node with the current node's filtered (empty) candidate
list already stored, `nfe1` is nodes_from_edges with the current
segment already removed. -/
def stepRestart (en1 nfe1 : List (String × List String))
    (nodes : List (String × Nat)) (num_paths : Nat) (cur_node : String)
    (rand : List Nat) : Option StepRes :=
  match randChoice rand (dkeys (dpop en1 cur_node)) with
  | none => some (StepRes.stop WalkOut.err)
  | some (n1, rand1) =>
    match dget (dpop en1 cur_node) n1 with
    | none => some (StepRes.stop WalkOut.err)
    | some l1 =>
      match restartLoop
          (dset (dpop en1 cur_node) n1 (l1.filter (fun t => dcontains nfe1 t))).length
          (dset (dpop en1 cur_node) n1 (l1.filter (fun t => dcontains nfe1 t)))
          nfe1 n1 rand1 with
      | none => none
      | some out =>
        match out with
        | RestartOut.fail => some (StepRes.stop WalkOut.err)
        | RestartOut.done =>
          some (StepRes.stop (WalkOut.ok nodes num_paths [] nfe1))
        | RestartOut.found en4 _ t4 rand4 =>
          match dget nfe1 t4 with
          | none => some (StepRes.stop WalkOut.err)
          | some nl =>
            match nl with
            | [] => some (StepRes.stop WalkOut.err)
            | n0 :: _ =>
              some (StepRes.next
                { edge_node := en4, nodes_from_edges := nfe1,
                  nodes := nodes, num_paths := num_paths + 1,
                  cur_node := n0, cur_tlid := t4, rand := rand4 })

/-- The similarity-move branch of walk_network's loop body (lines
313-339 plus the advance on lines 341-352). -/
def stepMove (data : List (String × Row)) (invcov_data : List (List ℤ))
    (metric : Metric) (en1 nfe1 : List (String × List String))
    (nodes : List (String × Nat)) (num_paths : Nat) (cur_node cur_tlid : String)
    (rand : List Nat) : Option StepRes :=
  match find_most_similar cur_tlid cur_node en1 (only_vars data) invcov_data metric with
  | none => some (StepRes.stop WalkOut.err)
  | some o =>
    match o with
    | none => some (StepRes.stop WalkOut.err)
    | some next_tlid =>
      match dget nfe1 next_tlid with
      | none => some (StepRes.stop WalkOut.err)
      | some nl =>
        match listRemove nl cur_node with
        | none => some (StepRes.stop WalkOut.err)
        | some nl2 =>
          match dget data cur_tlid with
          | none => some (StepRes.stop WalkOut.err)
          | some row1 =>
            match dget data next_tlid with
            | none => some (StepRes.stop WalkOut.err)
            | some row2 =>
              match dget (dset nfe1 next_tlid nl2) next_tlid with
              | none => some (StepRes.stop WalkOut.err)
              | some nl3 =>
                match nl3 with
                | [] => some (StepRes.stop WalkOut.err)
                | n0 :: _ =>
                  some (StepRes.next
                    { edge_node := en1, nodes_from_edges := dset nfe1 next_tlid nl2,
                      nodes := dset nodes cur_node
                        (if row1.fullname = row2.fullname then 1 else 0),
                      num_paths := num_paths,
                      cur_node := n0, cur_tlid := next_tlid, rand := rand })

/-- The body of walk_network's while loop: remove the visited segment,
filter the current node's candidates, then either restart (lines
288-311) or pick the most similar neighbour and record a decision
(lines 313-339), finally advancing to the next node-segment pair
(lines 341-352).  Every Python exception surfaces as `stop err`;
`none` is only the restart model running out of fuel, shown
unreachable. -/
def walkStep (data : List (String × Row)) (invcov_data : List (List ℤ))
    (metric : Metric) (st : WalkState) : Option StepRes :=
  match dget st.edge_node st.cur_node with
  | none => some (StepRes.stop WalkOut.err)
  | some cur_lst =>
    if (cur_lst.filter
        (fun t => dcontains (dpop st.nodes_from_edges st.cur_tlid) t)).length = 0 then
      stepRestart
        (dset st.edge_node st.cur_node
          (cur_lst.filter
            (fun t => dcontains (dpop st.nodes_from_edges st.cur_tlid) t)))
        (dpop st.nodes_from_edges st.cur_tlid)
        st.nodes st.num_paths st.cur_node st.rand
    else
      stepMove data invcov_data metric
        (dset st.edge_node st.cur_node
          (cur_lst.filter
            (fun t => dcontains (dpop st.nodes_from_edges st.cur_tlid) t)))
        (dpop st.nodes_from_edges st.cur_tlid)
        st.nodes st.num_paths st.cur_node st.cur_tlid st.rand

/-- walk_network's while loop (lines 278-356): iterate walkStep until
`nodes_from_edges` is empty.  `fuel` bounds the iterations of the
model; the termination theorem below shows `|nodes_from_edges| + 1`
iterations always suffice. -/
def walkAux (data : List (String × Row)) (invcov_data : List (List ℤ))
    (metric : Metric) : Nat → WalkState → Option WalkOut
  | 0, _ => none
  | fuel + 1, st =>
    if st.nodes_from_edges.length = 0 then
      some (WalkOut.ok st.nodes st.num_paths st.edge_node st.nodes_from_edges)
    else
      match walkStep data invcov_data metric st with
      | none => none
      | some sr =>
        match sr with
        | StepRes.stop out => some out
        | StepRes.next st2 => walkAux data invcov_data metric fuel st2

/-- greedy_walk.walk_network (lines 241-356): pick a random starting
node and segment, then run the loop. -/
def walk_network (fuel : Nat) (edge_node nodes_from_edges : List (String × List String))
    (data : List (String × Row)) (invcov_data : List (List ℤ)) (metric : Metric)
    (rand : List Nat) : Option WalkOut :=
  match randChoice rand (dkeys edge_node) with
  | none => some WalkOut.err
  | some (cur_node, rand1) =>
    match dget edge_node cur_node with
    | none => some WalkOut.err
    | some lst =>
      match randChoice rand1 lst with
      | none => some WalkOut.err
      | some (cur_tlid, rand2) =>
        walkAux data invcov_data metric fuel
          { edge_node := edge_node, nodes_from_edges := nodes_from_edges,
            nodes := [], num_paths := 1,
            cur_node := cur_node, cur_tlid := cur_tlid, rand := rand2 }

/- ### Helper lemmas about list/dict operations -/

theorem mem_dset_pair {α : Type} (d : List (String × α)) (k : String) (v : α)
    (p : String × α) (h : p ∈ dset d k v) : p ∈ d ∨ p = (k, v) := by
  induction d with
  | nil =>
    rw [show dset ([] : List (String × α)) k v = [(k, v)] from rfl] at h
    exact Or.inr (List.mem_singleton.mp h)
  | cons q t ih =>
    by_cases hq : q.1 = k
    · simp only [dset, if_pos hq, List.mem_cons] at h
      rcases h with h | h
      · exact Or.inr h
      · exact Or.inl (List.mem_cons_of_mem _ h)
    · simp only [dset, if_neg hq, List.mem_cons] at h
      rcases h with h | h
      · exact Or.inl (h ▸ List.mem_cons_self _ _)
      · rcases ih h with h2 | h2
        · exact Or.inl (List.mem_cons_of_mem _ h2)
        · exact Or.inr h2

theorem dcontains_dset_iff {α : Type} (d : List (String × α)) (k k2 : String) (v : α) :
    dcontains (dset d k v) k2 = true ↔ k2 = k ∨ dcontains d k2 = true := by
  rw [dcontains_iff, dget_dset]
  by_cases h : k2 = k <;> simp [h, dcontains_iff]

theorem listRemove_mem (xs : List String) (x : String) (ys : List String)
    (h : listRemove xs x = some ys) (y : String) (hy : y ∈ ys) : y ∈ xs := by
  induction xs generalizing ys with
  | nil => simp [listRemove] at h
  | cons a as ih =>
    by_cases ha : a = x
    · simp only [listRemove, if_pos ha, Option.some.injEq] at h
      exact List.mem_cons_of_mem _ (h ▸ hy)
    · simp only [listRemove, if_neg ha] at h
      cases hr : listRemove as x with
      | none => rw [hr] at h; simp at h
      | some r =>
        rw [hr] at h
        simp only [Option.map_some', Option.some.injEq] at h
        have hyr : y ∈ a :: r := h ▸ hy
        rcases List.mem_cons.mp hyr with h2 | h2
        · exact h2 ▸ List.mem_cons_self _ _
        · exact List.mem_cons_of_mem _ (ih r hr h2)

theorem dget_map_values {α β : Type} (g : α → β) (d : List (String × α)) (k : String) :
    dget (d.map (fun p => (p.1, g p.2))) k = (dget d k).map g := by
  induction d with
  | nil => simp [dget]
  | cons p t ih =>
    by_cases h : p.1 = k <;> simp [dget, h, ih]

theorem randChoice_mem {α : Type} {rand : List Nat} {xs : List α} {y : α}
    {r2 : List Nat} (h : randChoice rand xs = some (y, r2)) : y ∈ xs := by
  cases xs with
  | nil => simp [randChoice] at h
  | cons a as =>
    simp only [randChoice, Option.some.injEq, Prod.mk.injEq] at h
    obtain ⟨h1, _⟩ := h
    have hlt : rand.headD 0 % (a :: as).length < (a :: as).length :=
      Nat.mod_lt _ (by simp)
    rw [List.getD_eq_getElem (a :: as) a hlt] at h1
    exact h1 ▸ List.getElem_mem hlt

theorem randChoice_ne_none {α : Type} (rand : List Nat) (xs : List α)
    (h : xs ≠ []) : randChoice rand xs ≠ none := by
  cases xs with
  | nil => exact absurd rfl h
  | cons a as => simp [randChoice]

theorem mem_dedupAux (l : List String) :
    ∀ (seen : List String) (x : String),
      x ∈ dedupAux l seen ↔ x ∈ l ∧ ¬ x ∈ seen := by
  induction l with
  | nil => intro seen x; simp [dedupAux]
  | cons a as ih =>
    intro seen x
    by_cases ha : a ∈ seen
    · rw [show dedupAux (a :: as) seen = dedupAux as seen by simp [dedupAux, ha]]
      rw [ih seen x]
      constructor
      · rintro ⟨h1, h2⟩; exact ⟨List.mem_cons_of_mem _ h1, h2⟩
      · rintro ⟨h1, h2⟩
        rcases (List.mem_cons.mp h1) with he | hm
        · exact absurd (he ▸ ha) h2
        · exact ⟨hm, h2⟩
    · rw [show dedupAux (a :: as) seen = a :: dedupAux as (a :: seen) by
        simp [dedupAux, ha]]
      simp only [List.mem_cons, ih (a :: seen) x]
      by_cases hx : x = a
      · subst hx; simp [ha]
      · simp [hx]

theorem mem_dedupFirst (l : List String) (x : String) :
    x ∈ dedupFirst l ↔ x ∈ l := by
  rw [dedupFirst, mem_dedupAux]
  simp

theorem mem_insertSorted (y : String) (l : List String) (x : String) :
    x ∈ insertSorted y l ↔ x = y ∨ x ∈ l := by
  induction l with
  | nil => simp [insertSorted]
  | cons a t ih =>
    by_cases h : strLtB y a = true
    · simp [insertSorted, h]
    · simp only [insertSorted, if_neg h, List.mem_cons, ih]
      tauto

theorem mem_sortStr (l : List String) (x : String) :
    x ∈ sortStr l ↔ x ∈ l := by
  induction l with
  | nil => simp [sortStr]
  | cons a t ih =>
    rw [show sortStr (a :: t) = insertSorted a (sortStr t) from rfl,
      mem_insertSorted]
    simp [ih]

theorem dget_keymap {α : Type} (ks : List String) (f : String → α) (k : String) :
    dget (ks.map (fun x => (x, f x))) k =
      if k ∈ ks then some (f k) else none := by
  induction ks with
  | nil => simp [dget]
  | cons a t ih =>
    by_cases h : a = k
    · subst h; simp [dget]
    · rw [List.map_cons, dget_cons]
      simp only [if_neg h, ih, List.mem_cons]
      by_cases hm : k ∈ t
      · simp [hm]
      · simp [hm, show ¬ k = a from fun he => h he.symm]

theorem mem_valuesOf (df : List (String × String)) (k v : String) :
    v ∈ valuesOf df k ↔ (k, v) ∈ df := by
  unfold valuesOf
  rw [List.mem_filterMap]
  constructor
  · rintro ⟨p, hp, he⟩
    by_cases h : p.1 = k
    · simp only [if_pos h, Option.some.injEq] at he
      have : p = (k, v) := Prod.ext h (he : p.2 = v)
      exact this ▸ hp
    · simp [if_neg h] at he
  · intro h
    exact ⟨(k, v), h, by simp⟩

theorem dget_groupBy (df : List (String × String)) (k : String) :
    dget (groupBy df) k =
      if k ∈ df.map Prod.fst then some (valuesOf df k) else none := by
  unfold groupBy
  rw [dget_keymap]
  by_cases h : k ∈ df.map Prod.fst
  · rw [if_pos h, if_pos (by rw [mem_sortStr, mem_dedupFirst]; exact h)]
  · rw [if_neg h, if_neg (by rw [mem_sortStr, mem_dedupFirst]; exact h)]

theorem valuesOf_ne_nil (df : List (String × String)) (k : String)
    (h : k ∈ df.map Prod.fst) : valuesOf df k ≠ [] := by
  rw [List.mem_map] at h
  obtain ⟨p, hp, he⟩ := h
  have : p.2 ∈ valuesOf df k := by
    rw [mem_valuesOf]
    exact (show (k, p.2) = p from Prod.ext he.symm rfl) ▸ hp
  exact List.ne_nil_of_mem this

theorem filterMap_tlid_single {β : Type} (edges : List EdgeRow) (e : EdgeRow)
    (g : EdgeRow → β) (hnd : (edges.map EdgeRow.tlid).Nodup) (he : e ∈ edges) :
    edges.filterMap
      (fun e2 => if e2.tlid = e.tlid then some (g e2) else none) = [g e] := by
  induction edges with
  | nil => cases he
  | cons e0 t ih =>
    rw [List.map_cons, List.nodup_cons] at hnd
    by_cases h0 : e0.tlid = e.tlid
    · have hee : e = e0 := by
        rcases List.mem_cons.mp he with h | h
        · exact h.symm ▸ rfl
        · exact absurd (h0 ▸ List.mem_map_of_mem EdgeRow.tlid h) hnd.1
      subst hee
      have hstep : List.filterMap
          (fun e2 => if e2.tlid = e.tlid then some (g e2) else none) (e :: t) =
          g e :: List.filterMap
            (fun e2 => if e2.tlid = e.tlid then some (g e2) else none) t := by
        simp [List.filterMap_cons]
      rw [hstep, List.filterMap_eq_nil.mpr]
      intro x hx
      simp only [ite_eq_right_iff]
      intro hxe
      exact absurd (hxe ▸ List.mem_map_of_mem EdgeRow.tlid hx) hnd.1
    · have hstep : List.filterMap
          (fun e2 => if e2.tlid = e.tlid then some (g e2) else none) (e0 :: t) =
          List.filterMap
            (fun e2 => if e2.tlid = e.tlid then some (g e2) else none) t := by
        simp [List.filterMap_cons, h0]
      rw [hstep]
      refine ih hnd.2 ?_
      rcases List.mem_cons.mp he with h | h
      · exact absurd (h ▸ rfl) h0
      · exact h

/- ### Characterisation of the dictionary-building loops (partitioner) -/

theorem dget_foldl_dstep {α β : Type} (f : α → Option β) :
    ∀ (l : List (String × α)) (acc : List (String × β)),
      (l.map Prod.fst).Nodup →
      (∀ k, dcontains acc k = true → ¬ k ∈ l.map Prod.fst) →
      ∀ (a : String) (b : β),
        dget (l.foldl (dstep f) acc) a = some b ↔
          dget acc a = some b ∨ ∃ v, dget l a = some v ∧ f v = some b := by
  intro l
  induction l with
  | nil => intro acc _ _ a b; simp [dget]
  | cons p t ih =>
    intro acc hnd hdisj a b
    rw [List.map_cons, List.nodup_cons] at hnd
    rw [List.foldl_cons]
    have hdisj2 : ∀ k, dcontains (dstep f acc p) k = true → ¬ k ∈ t.map Prod.fst := by
      intro k hk
      unfold dstep at hk
      cases hf : f p.2 with
      | none =>
        rw [hf] at hk
        exact fun hm => hdisj k hk (by rw [List.map_cons]; exact List.mem_cons_of_mem _ hm)
      | some b0 =>
        rw [hf] at hk
        rcases (dcontains_dset_iff acc p.1 k b0).mp hk with he | hc
        · exact he ▸ hnd.1
        · exact fun hm => hdisj k hc (by rw [List.map_cons]; exact List.mem_cons_of_mem _ hm)
    rw [ih (dstep f acc p) hnd.2 hdisj2 a b]
    by_cases ha : p.1 = a
    · have hacc : dget acc a = none := by
        cases hg : dget acc a with
        | none => rfl
        | some w =>
          exact absurd
            (by rw [List.map_cons, ha]; exact List.mem_cons_self _ _ :
              a ∈ (p :: t).map Prod.fst)
            (hdisj a ((dcontains_iff acc a).mpr ⟨w, hg⟩))
      have htnone : dget t a = none := by
        cases hg : dget t a with
        | none => rfl
        | some w =>
          exact absurd ((mem_dkeys_iff t a).mpr ⟨w, hg⟩ : a ∈ dkeys t) (ha ▸ hnd.1)
      constructor
      · rintro (hl | ⟨v, hv, hfv⟩)
        · unfold dstep at hl
          cases hf : f p.2 with
          | none =>
            rw [hf, hacc] at hl
            exact absurd hl (by simp)
          | some b0 =>
            rw [hf, dget_dset, if_pos ha.symm] at hl
            right
            refine ⟨p.2, by rw [dget_cons, if_pos ha], ?_⟩
            rw [hf]
            exact hl
        · rw [htnone] at hv
          exact absurd hv (by simp)
      · rintro (hl | ⟨v, hv, hfv⟩)
        · rw [hacc] at hl
          exact absurd hl (by simp)
        · rw [dget_cons, if_pos ha] at hv
          have hv2 : v = p.2 := by injection hv with h2; exact h2.symm
          subst hv2
          left
          unfold dstep
          rw [hfv, dget_dset, if_pos ha.symm]
    · have hstep2 : dget (dstep f acc p) a = dget acc a := by
        unfold dstep
        cases hf : f p.2 with
        | none => rfl
        | some b0 => rw [dget_dset, if_neg (show ¬ a = p.1 from fun he => ha he.symm)]
      rw [hstep2, dget_cons, if_neg ha]

/-- C5: for a candidate-set mapping with unique address keys, an
address is mapped by get_single_TLID_addresses (to its unique TLID) iff
its candidate set is a list with exactly one non-empty entry, it is
mapped by get_multi_TLID_addresses (to the full candidate list) iff its
candidate set is a list with at least two entries, and no address is in
both mappings; a singleton candidate set whose entry is the empty
(falsy) string is in neither. -/
theorem get_single_multi_TLID_partition (xwalk : List (String × Option (List String)))
    (a t : String) (l : List String) (hnd : (xwalk.map Prod.fst).Nodup) :
    (dget (get_single_TLID_addresses xwalk) a = some t ↔
      dget xwalk a = some (some [t]) ∧ ¬ t = "") ∧
    (dget (get_multi_TLID_addresses xwalk) a = some l ↔
      dget xwalk a = some (some l) ∧ 2 ≤ l.length) ∧
    ¬ (dcontains (get_single_TLID_addresses xwalk) a = true ∧
       dcontains (get_multi_TLID_addresses xwalk) a = true) := by
  have hdisj0 : ∀ {β : Type} (k : String),
      dcontains ([] : List (String × β)) k = true → ¬ k ∈ xwalk.map Prod.fst := by
    intro β k hk
    simp [dcontains, dget] at hk
  have hsingle : ∀ t2 : String,
      dget (get_single_TLID_addresses xwalk) a = some t2 ↔
        dget xwalk a = some (some [t2]) ∧ ¬ t2 = "" := by
    intro t2
    rw [show get_single_TLID_addresses xwalk = xwalk.foldl (dstep single_pick) []
      from rfl]
    rw [dget_foldl_dstep single_pick xwalk [] hnd (fun k => hdisj0 k) a t2]
    constructor
    · rintro (hl | ⟨v, hv, hp⟩)
      · exact absurd hl (by simp [dget])
      · rcases v with _ | ⟨cands⟩
        · simp [single_pick] at hp
        · rcases cands with _ | ⟨c, cs⟩
          · simp [single_pick] at hp
          · rcases cs with _ | ⟨c2, cs2⟩
            · by_cases hc : c = ""
              · simp [single_pick, hc] at hp
              · rw [show single_pick (some [c]) = some c by simp [single_pick, hc]] at hp
                have : c = t2 := by injection hp
                subst this
                exact ⟨hv, hc⟩
            · simp [single_pick] at hp
    · rintro ⟨hv, ht⟩
      exact Or.inr ⟨some [t2], hv, by simp [single_pick, ht]⟩
  have hmulti : ∀ l2 : List String,
      dget (get_multi_TLID_addresses xwalk) a = some l2 ↔
        dget xwalk a = some (some l2) ∧ 2 ≤ l2.length := by
    intro l2
    rw [show get_multi_TLID_addresses xwalk = xwalk.foldl (dstep multi_pick) []
      from rfl]
    rw [dget_foldl_dstep multi_pick xwalk [] hnd (fun k => hdisj0 k) a l2]
    constructor
    · rintro (hl | ⟨v, hv, hp⟩)
      · exact absurd hl (by simp [dget])
      · rcases v with _ | ⟨cands⟩
        · simp [multi_pick] at hp
        · by_cases hlen : 1 < cands.length
          · rw [show multi_pick (some cands) = some cands by simp [multi_pick, hlen]] at hp
            have : cands = l2 := by injection hp
            subst this
            exact ⟨hv, hlen⟩
          · simp [multi_pick, hlen] at hp
    · rintro ⟨hv, hlen⟩
      exact Or.inr ⟨some l2, hv, by simp [multi_pick]; omega⟩
  refine ⟨hsingle t, hmulti l, ?_⟩
  rintro ⟨h1, h2⟩
  obtain ⟨t0, ht0⟩ := (dcontains_iff _ _).mp h1
  obtain ⟨l0, hl0⟩ := (dcontains_iff _ _).mp h2
  obtain ⟨hx1, _⟩ := (hsingle t0).mp ht0
  obtain ⟨hx2, hlen⟩ := (hmulti l0).mp hl0
  rw [hx1] at hx2
  have : some [t0] = some l0 := by injection hx2
  have : [t0] = l0 := by injection this
  rw [← this] at hlen
  simp at hlen

/-- C5 witness: the partition characterisation applied to a concrete
crosswalk with a single-candidate, a multi-candidate, a falsy-singleton
and a merge-miss address. -/
theorem get_single_multi_TLID_partition_witness :
    (dget (get_single_TLID_addresses
        [("s", some ["T"]), ("m", some ["U", "V"]), ("f", some [""]), ("n", none)]) "s" = some "T" ↔
      dget [("s", some ["T"]), ("m", some ["U", "V"]), ("f", some [""]), ("n", none)] "s" =
          some (some ["T"]) ∧ ¬ "T" = "") ∧
    (dget (get_multi_TLID_addresses
        [("s", some ["T"]), ("m", some ["U", "V"]), ("f", some [""]), ("n", none)]) "s" = some ["U", "V"] ↔
      dget [("s", some ["T"]), ("m", some ["U", "V"]), ("f", some [""]), ("n", none)] "s" =
          some (some ["U", "V"]) ∧ 2 ≤ (["U", "V"] : List String).length) ∧
    ¬ (dcontains (get_single_TLID_addresses
          [("s", some ["T"]), ("m", some ["U", "V"]), ("f", some [""]), ("n", none)]) "s" = true ∧
       dcontains (get_multi_TLID_addresses
          [("s", some ["T"]), ("m", some ["U", "V"]), ("f", some [""]), ("n", none)]) "s" = true) :=
  get_single_multi_TLID_partition
    [("s", some ["T"]), ("m", some ["U", "V"]), ("f", some [""]), ("n", none)]
    "s" "T" ["U", "V"] (by decide)

/- ### Metric failure semantics -/

theorem metricDist_fin_contains (metric : Metric) (t1 t2 : String)
    (data : List (String × List ℤ)) (invcov : List (List ℤ)) (q : ℤ)
    (h : metricDist metric t1 t2 data invcov = some (Dist.fin q)) :
    dcontains data t2 = true := by
  cases metric with
  | e =>
    unfold metricDist euc_distance at h
    cases h1 : dget data t1 with
    | none => rw [h1] at h; exact absurd h (by simp)
    | some p1 =>
      rw [h1] at h
      cases h2 : dget data t2 with
      | none => rw [h2] at h; simp at h
      | some p2 => exact (dcontains_iff data t2).mpr ⟨p2, h2⟩
  | m =>
    unfold metricDist mahal_distance at h
    cases h1 : dget data t1 with
    | none => rw [h1] at h; exact absurd h (by simp)
    | some p1 =>
      rw [h1] at h
      cases h2 : dget data t2 with
      | none => rw [h2] at h; simp at h
      | some p2 => exact (dcontains_iff data t2).mpr ⟨p2, h2⟩

theorem fms_loop_sel_contains (tlid : String) (data : List (String × List ℤ))
    (invcov : List (List ℤ)) (metric : Metric) (c : String) :
    ∀ (cands : List String) (next : Option String),
      fms_loop tlid cands data invcov metric Dist.inf next = some (some c) →
      next = some c ∨ dcontains data c = true := by
  intro cands
  induction cands with
  | nil =>
    intro next h
    unfold fms_loop at h
    exact Or.inl (by injection h)
  | cons hd tl ih =>
    intro next h
    unfold fms_loop at h
    cases hm : metricDist metric tlid hd data invcov with
    | none => rw [hm] at h; exact absurd h (by simp)
    | some dist =>
      rw [hm] at h
      try dsimp only at h
      by_cases hlt : distLt dist Dist.inf = true
      · rw [if_pos hlt] at h
        rcases ih (some hd) h with he | hc
        · have hdfin : ∃ q, dist = Dist.fin q := by
            cases dist with
            | fin q => exact ⟨q, rfl⟩
            | inf => simp [distLt] at hlt
          obtain ⟨q, hq⟩ := hdfin
          have hc2 : c = hd := by injection he with h2; exact h2.symm
          subst hc2
          exact Or.inr (metricDist_fin_contains metric tlid c data invcov q (hq ▸ hm))
        · exact Or.inr hc
      · rw [if_neg hlt] at h
        exact ih next h

theorem find_most_similar_sel_contains (tlid node : String)
    (edge_node : List (String × List String)) (data : List (String × List ℤ))
    (invcov : List (List ℤ)) (metric : Metric) (c : String)
    (h : find_most_similar tlid node edge_node data invcov metric = some (some c)) :
    dcontains data c = true := by
  unfold find_most_similar at h
  cases hg : dget edge_node node with
  | none => rw [hg] at h; exact absurd h (by simp)
  | some cands =>
    rw [hg] at h
    rcases fms_loop_sel_contains tlid data invcov metric c cands none h with he | hc
    · exact absurd he (by simp)
    · exact hc

/-- C6 counterexample: a segment involved in the lookup (`tlid_1`, the
current segment) has no row in the attribute table, and both distance
functions RAISE (the `data.loc[tlid_1,:]` lookup sits outside the
try/except) instead of returning infinite distance. -/
theorem euc_mahal_raise_on_missing_current :
    euc_distance "A" "B" [("B", [(0 : ℤ)])] = none ∧
    mahal_distance "A" "B" [("B", [(0 : ℤ)])] [[1]] = none ∧
    dcontains [("B", [(0 : ℤ)])] "A" = false :=
  ⟨rfl, rfl, rfl⟩

/-- C6 (amended): euc_distance and mahal_distance return infinite
distance — and never raise — when the SECOND segment of the lookup (the
candidate) has no attribute row, and any segment selected by
find_most_similar has an attribute row (a candidate lacking one is
never selected); a missing row for the FIRST segment (the current one)
instead propagates a KeyError. -/
theorem metric_missing_row_semantics (t1 t2 tlid node : String)
    (edge_node : List (String × List String)) (data : List (String × List ℤ))
    (invcov : List (List ℤ)) (metric : Metric) (c : String)
    (h1 : dcontains data t1 = true) (h2 : dcontains data t2 = false)
    (h3 : find_most_similar tlid node edge_node data invcov metric = some (some c)) :
    euc_distance t1 t2 data = some Dist.inf ∧
    mahal_distance t1 t2 data invcov = some Dist.inf ∧
    dcontains data c = true := by
  obtain ⟨v1, hv1⟩ := (dcontains_iff data t1).mp h1
  have hv2 : dget data t2 = none := by
    cases hg : dget data t2 with
    | none => rfl
    | some w =>
      unfold dcontains at h2
      rw [hg] at h2
      simp at h2
  refine ⟨?_, ?_,
    find_most_similar_sel_contains tlid node edge_node data invcov metric c h3⟩
  · unfold euc_distance
    rw [hv1, hv2]
  · unfold mahal_distance
    rw [hv1, hv2]

/-- C6 witness: the amended semantics applied at a concrete table. -/
theorem metric_missing_row_semantics_witness :
    euc_distance "A" "Z" [("A", [(0 : ℤ)]), ("b", [1])] = some Dist.inf ∧
    mahal_distance "A" "Z" [("A", [(0 : ℤ)]), ("b", [1])] [[1]] = some Dist.inf ∧
    dcontains [("A", [(0 : ℤ)]), ("b", [1])] "b" = true :=
  metric_missing_row_semantics "A" "Z" "A" "n" [("n", ["b"])]
    [("A", [(0 : ℤ)]), ("b", [1])] [[1]] Metric.e "b" rfl rfl rfl

/- ### C1 and C2: the two selection loops -/

/-- C1: the geometric resolver does NOT return the minimum over all
candidates and its result depends on candidate iteration order — the
`return` on source line 196 sits inside the candidate loop, so only the
first dictionary entry is ever examined.  Here the point coincides with
a vertex of segment A (distance 0, strictly below every vertex of B),
yet with B listed first the resolver returns B; listing A first returns
A. -/
theorem find_closest_depends_on_order :
    find_closest [("B", some [((10 : ℤ), (10 : ℤ)), (11, 11)]),
        ("A", some [(0, 0), (1, 1)])] (0, 0) = some "B" ∧
    find_closest [("A", some [((0 : ℤ), (0 : ℤ)), (1, 1)]),
        ("B", some [(10, 10), (11, 11)])] (0, 0) = some "A" ∧
    distLt (Dist.fin (straight_line_distance_sq (0, 0) (0, 0)))
      (Dist.fin (straight_line_distance_sq (10, 10) (0, 0))) = true :=
  ⟨rfl, rfl, by decide⟩

/-- C2: find_most_similar does NOT return the minimum-distance segment:
source line 236 assigns `dist = min_dist` instead of `min_dist = dist`,
so the tracker stays at np.inf and the LAST finite-distance candidate
wins.  Here c1 is strictly closer to the current segment A than c2
(squared distances 1 < 25), yet c2 is returned. -/
theorem find_most_similar_returns_last :
    find_most_similar "A" "n" [("n", ["c1", "c2"])]
      [("A", [(0 : ℤ)]), ("c1", [1]), ("c2", [5])] [] Metric.e = some (some "c2") ∧
    distLt (Dist.fin (sumSqDiff [(0 : ℤ)] [1])) (Dist.fin (sumSqDiff [(0 : ℤ)] [5])) = true :=
  ⟨rfl, by decide⟩

/- ### C7: the county matcher -/

theorem match_an_address_none (id : String) (attributes : List String)
    (geom_list : List (String × List (String × Geom))) :
    match_an_address id attributes geom_list = none := by
  unfold match_an_address
  cases dget geom_list id <;> rfl

/-- C7 counterexample: an address whose candidate set is a singleton
falsy entry is present in the input mapping but the resolved mapping
match_county_tlid produces contains NO entry for it — neither a match
nor a "no match" sentinel. -/
theorem match_county_tlid_no_sentinel :
    match_county_tlid [("u", some [""])] [] = some [] ∧
    dget [("u", some [""])] "u" = some (some [""]) :=
  ⟨rfl, rfl⟩

/-- C7 (amended): whenever match_county_tlid returns a resolved
mapping, that mapping holds exactly the single-candidate addresses with
their unique TLIDs; addresses with an empty or malformed candidate set
are absent (dropped, observable only through the printed counts), and
the presence of any multi-candidate address makes the multi branch
raise instead (its coordinate lookup indexes the candidate list with a
string key). -/
theorem match_county_tlid_single_only (xwalk : List (String × Option (List String)))
    (edges : List (String × List (ℤ × ℤ))) (res : List (String × Option String))
    (a : String) (h : match_county_tlid xwalk edges = some res) :
    dget res a = (dget (get_single_TLID_addresses xwalk) a).map some := by
  unfold match_county_tlid at h
  cases hm : get_multi_TLID_addresses xwalk with
  | nil =>
    rw [hm] at h
    rw [show match_generator [] (get_candidate_geoms [] edges) = some [] from rfl] at h
    have hres : res = (get_single_TLID_addresses xwalk).map (fun p => (p.1, some p.2)) := by
      have := h
      simp only [dmerge, List.foldl_nil, Option.some.injEq] at this
      exact this.symm
    rw [hres, dget_map_values]
  | cons p rest =>
    exfalso
    rw [hm] at h
    have hgen : match_generator (p :: rest)
        (get_candidate_geoms (p :: rest) edges) = none := by
      unfold match_generator
      rw [match_an_address_none]
    rw [hgen] at h
    exact absurd h (by simp)

/-- C7 witness: the amended mapping contract applied to a concrete
crosswalk holding one single-candidate address and one falsy-singleton
address. -/
theorem match_county_tlid_single_only_witness :
    dget [("s", some "T")] "u" =
      (dget (get_single_TLID_addresses [("s", some ["T"]), ("u", some [""])]) "u").map some :=
  match_county_tlid_single_only [("s", some ["T"]), ("u", some [""])] []
    [("s", some "T")] "u" rfl

/- ### C9: determinism of the walk -/

/-- C9: walk_network is a pure function of the graph, the attribute
data, the metric and the random index stream: two runs from the same
seeded random state (equal streams) on the same inputs return identical
results, decision tables included. -/
theorem walk_network_deterministic (fuel : Nat)
    (edge_node nodes_from_edges : List (String × List String))
    (data : List (String × Row)) (invcov_data : List (List ℤ)) (metric : Metric)
    (r1 r2 : List Nat) (h : r1 = r2) :
    walk_network fuel edge_node nodes_from_edges data invcov_data metric r1 =
      walk_network fuel edge_node nodes_from_edges data invcov_data metric r2 := by
  rw [h]

/-- C9 witness: determinism at a concrete one-edge graph and stream. -/
theorem walk_network_deterministic_witness :
    walk_network 2 [("A", ["T1"]), ("B", ["T1"])] [("T1", ["A", "B"])]
        [("T1", ⟨[0], "X"⟩)] [] Metric.e [0] =
      walk_network 2 [("A", ["T1"]), ("B", ["T1"])] [("T1", ["A", "B"])]
        [("T1", ⟨[0], "X"⟩)] [] Metric.e [0] :=
  walk_network_deterministic 2 [("A", ["T1"]), ("B", ["T1"])] [("T1", ["A", "B"])]
    [("T1", ⟨[0], "X"⟩)] [] Metric.e [0] [0] rfl

/- ### Graph invariants of the walk

`InvIK en nfe` says: every unvisited segment has a non-empty remaining
node list, and each of those nodes is still present in edge_node with
the segment listed there.  It holds for the dictionaries built by
create_node_dict and is preserved by every operation of the walk, which
is what makes the early return inside the restart search (source line
302) reachable only with nodes_from_edges already empty. -/
def InvIK (en nfe : List (String × List String)) : Prop :=
  ∀ t nl, dget nfe t = some nl →
    nl ≠ [] ∧ ∀ n ∈ nl, ∃ tl, dget en n = some tl ∧ t ∈ tl

theorem InvIK_filter_set (en nfe : List (String × List String)) (node : String)
    (lst : List String) (hInv : InvIK en nfe) (hget : dget en node = some lst) :
    InvIK (dset en node (lst.filter (fun t => dcontains nfe t))) nfe := by
  intro t nl h
  obtain ⟨hne, hall⟩ := hInv t nl h
  refine ⟨hne, ?_⟩
  intro n hn
  obtain ⟨tl, htl, hmem⟩ := hall n hn
  by_cases hn2 : n = node
  · subst hn2
    have htl2 : tl = lst := by
      rw [hget] at htl
      injection htl with h2
      exact h2.symm
    refine ⟨lst.filter (fun t => dcontains nfe t), ?_, ?_⟩
    · rw [dget_dset, if_pos rfl]
    · exact List.mem_filter.mpr ⟨htl2 ▸ hmem, (dcontains_iff nfe t).mpr ⟨nl, h⟩⟩
  · exact ⟨tl, by rw [dget_dset, if_neg hn2]; exact htl, hmem⟩

theorem InvIK_pop_empty_node (en nfe : List (String × List String)) (node : String)
    (hInv : InvIK en nfe) (hget : dget en node = some []) :
    InvIK (dpop en node) nfe := by
  intro t nl h
  obtain ⟨hne, hall⟩ := hInv t nl h
  refine ⟨hne, ?_⟩
  intro n hn
  obtain ⟨tl, htl, hmem⟩ := hall n hn
  by_cases hn2 : n = node
  · subst hn2
    rw [hget] at htl
    have : tl = [] := by injection htl with h2; exact h2.symm
    exact absurd (this ▸ hmem) (List.not_mem_nil t)
  · exact ⟨tl, by rw [dget_dpop, if_neg hn2]; exact htl, hmem⟩

theorem InvIK_nil (nfe : List (String × List String))
    (hInv : InvIK ([] : List (String × List String)) nfe) : nfe = [] := by
  cases hn : nfe with
  | nil => rfl
  | cons p rest =>
    exfalso
    have hget : dget nfe p.1 = some p.2 := by
      rw [hn, dget_cons, if_pos rfl]
    obtain ⟨hne, hall⟩ := hInv p.1 p.2 hget
    obtain ⟨n, hmem⟩ := List.exists_mem_of_ne_nil p.2 hne
    obtain ⟨tl, htl, _⟩ := hall n hmem
    exact absurd htl (by simp [dget])

theorem InvIK_pop_nfe (en nfe : List (String × List String)) (k : String)
    (hInv : InvIK en nfe) : InvIK en (dpop nfe k) := by
  intro t nl h
  rw [dget_dpop] at h
  by_cases ht : t = k
  · rw [if_pos ht] at h; exact absurd h (by simp)
  · rw [if_neg ht] at h
    exact hInv t nl h

theorem InvIK_shrink_value (en nfe : List (String × List String)) (t : String)
    (nl nl2 : List String) (x : String) (hInv : InvIK en nfe)
    (hget : dget nfe t = some nl) (hrem : listRemove nl x = some nl2)
    (hne2 : nl2 ≠ []) : InvIK en (dset nfe t nl2) := by
  intro t2 nl3 h
  rw [dget_dset] at h
  by_cases ht : t2 = t
  · subst ht
    rw [if_pos rfl] at h
    have hnl3 : nl3 = nl2 := by injection h with h2; exact h2.symm
    subst hnl3
    refine ⟨hne2, ?_⟩
    intro n hn
    obtain ⟨_, hall⟩ := hInv t2 nl hget
    exact hall n (listRemove_mem nl x nl3 hrem n hn)
  · rw [if_neg ht] at h
    exact hInv t2 nl3 h

theorem mem_dkeys_dset_self {α : Type} (d : List (String × α)) (k : String) (v : α) :
    k ∈ dkeys (dset d k v) := by
  rw [mem_dkeys_iff]
  exact (dcontains_iff _ _).mp (dcontains_dset_self d k v)

/- ### Behaviour of the restart search -/

theorem restartLoop_ne_none :
    ∀ (fuel : Nat) (en nfe : List (String × List String)) (n : String)
      (rand : List Nat), n ∈ dkeys en → en.length ≤ fuel →
      restartLoop fuel en nfe n rand ≠ none := by
  intro fuel
  induction fuel with
  | zero =>
    intro en nfe n rand hmem hlen
    exfalso
    have hnil : en = [] := List.length_eq_zero.mp (Nat.le_zero.mp hlen)
    rw [hnil] at hmem
    exact absurd hmem (by simp [dkeys])
  | succ fuel ih =>
    intro en nfe n rand hmem hlen h
    unfold restartLoop at h
    cases hg : dget en n with
    | none => rw [hg] at h; exact absurd h (by simp)
    | some lst =>
      rw [hg] at h
      try dsimp only at h
      by_cases hl : lst.length = 0
      · rw [if_pos hl] at h
        by_cases he2 : (dpop en n).length = 0
        · rw [if_pos he2] at h
          exact absurd h (by simp)
        · rw [if_neg he2] at h
          have hkeys : dkeys (dpop en n) ≠ [] := by
            intro hk
            exact he2 (by rw [(dkeys_nil_iff _).mp hk]; rfl)
          cases hc : randChoice rand (dkeys (dpop en n)) with
          | none => exact absurd hc (randChoice_ne_none rand _ hkeys)
          | some pr =>
            obtain ⟨n2, rand2⟩ := pr
            rw [hc] at h
            try dsimp only at h
            cases hg2 : dget (dpop en n) n2 with
            | none => rw [hg2] at h; exact absurd h (by simp)
            | some l2 =>
              rw [hg2] at h
              try dsimp only at h
              refine ih (dset (dpop en n) n2 (l2.filter (fun t => dcontains nfe t)))
                nfe n2 rand2 (mem_dkeys_dset_self _ _ _) ?_ h
              have hpop : (dpop en n).length < en.length :=
                length_dpop_lt_of_contains en n ((dcontains_iff en n).mpr ⟨lst, hg⟩)
              have hset : (dset (dpop en n) n2
                  (l2.filter (fun t => dcontains nfe t))).length = (dpop en n).length :=
                length_dset_of_contains _ n2 _ ((dcontains_iff _ n2).mpr ⟨l2, hg2⟩)
              omega
      · rw [if_neg hl] at h
        have hlst : lst ≠ [] := fun he => hl (by rw [he]; rfl)
        cases hc : randChoice rand lst with
        | none => exact absurd hc (randChoice_ne_none rand lst hlst)
        | some pr =>
          obtain ⟨t, rand2⟩ := pr
          rw [hc] at h
          try dsimp only at h
          exact absurd h (by simp)

theorem restartLoop_found_contains :
    ∀ (fuel : Nat) (en nfe : List (String × List String)) (n : String)
      (rand : List Nat) (en4 : List (String × List String)) (n4 t4 : String)
      (rand4 : List Nat),
      (∀ l, dget en n = some l → ∀ x ∈ l, dcontains nfe x = true) →
      restartLoop fuel en nfe n rand = some (RestartOut.found en4 n4 t4 rand4) →
      dcontains nfe t4 = true := by
  intro fuel
  induction fuel with
  | zero =>
    intro en nfe n rand en4 n4 t4 rand4 hent h
    exact absurd h (by simp [restartLoop])
  | succ fuel ih =>
    intro en nfe n rand en4 n4 t4 rand4 hent h
    unfold restartLoop at h
    cases hg : dget en n with
    | none => rw [hg] at h; exact absurd h (by simp)
    | some lst =>
      rw [hg] at h
      try dsimp only at h
      by_cases hl : lst.length = 0
      · rw [if_pos hl] at h
        by_cases he2 : (dpop en n).length = 0
        · rw [if_pos he2] at h; exact absurd h (by simp)
        · rw [if_neg he2] at h
          cases hc : randChoice rand (dkeys (dpop en n)) with
          | none => rw [hc] at h; exact absurd h (by simp)
          | some pr =>
            obtain ⟨n2, rand2⟩ := pr
            rw [hc] at h
            try dsimp only at h
            cases hg2 : dget (dpop en n) n2 with
            | none => rw [hg2] at h; exact absurd h (by simp)
            | some l2 =>
              rw [hg2] at h
              try dsimp only at h
              refine ih _ nfe n2 rand2 en4 n4 t4 rand4 ?_ h
              intro l hget x hx
              rw [dget_dset, if_pos rfl] at hget
              have hle : l = l2.filter (fun t => dcontains nfe t) := by
                injection hget with h2
                exact h2.symm
              subst hle
              exact (List.mem_filter.mp hx).2
      · rw [if_neg hl] at h
        cases hc : randChoice rand lst with
        | none => rw [hc] at h; exact absurd h (by simp)
        | some pr =>
          obtain ⟨t, rand2⟩ := pr
          rw [hc] at h
          try dsimp only at h
          have hte : t = t4 := by
            injection h with h2
            injection h2 with _ _ h3 _
          subst hte
          exact hent lst hg t (randChoice_mem hc)

theorem restartLoop_inv :
    ∀ (fuel : Nat) (en nfe : List (String × List String)) (n : String)
      (rand : List Nat) (out : RestartOut),
      InvIK en nfe → restartLoop fuel en nfe n rand = some out →
      (out = RestartOut.done → nfe = []) ∧
      (∀ en4 n4 t4 rand4, out = RestartOut.found en4 n4 t4 rand4 → InvIK en4 nfe) := by
  intro fuel
  induction fuel with
  | zero =>
    intro en nfe n rand out hInv h
    exact absurd h (by simp [restartLoop])
  | succ fuel ih =>
    intro en nfe n rand out hInv h
    unfold restartLoop at h
    cases hg : dget en n with
    | none =>
      rw [hg] at h
      try dsimp only at h
      have hout : out = RestartOut.fail := by injection h with h2; exact h2.symm
      subst hout
      exact ⟨(by intro he; cases he), (by intro a b c d he; cases he)⟩
    | some lst =>
      rw [hg] at h
      try dsimp only at h
      by_cases hl : lst.length = 0
      · rw [if_pos hl] at h
        have hlst : lst = [] := List.length_eq_zero.mp hl
        subst hlst
        have hInv2 : InvIK (dpop en n) nfe := InvIK_pop_empty_node en nfe n hInv hg
        by_cases he2 : (dpop en n).length = 0
        · rw [if_pos he2] at h
          have hout : out = RestartOut.done := by injection h with h2; exact h2.symm
          subst hout
          refine ⟨fun _ => ?_, (by intro a b c d he; cases he)⟩
          have hnil : dpop en n = [] := List.length_eq_zero.mp he2
          exact InvIK_nil nfe (hnil ▸ hInv2)
        · rw [if_neg he2] at h
          cases hc : randChoice rand (dkeys (dpop en n)) with
          | none =>
            rw [hc] at h
            try dsimp only at h
            have hout : out = RestartOut.fail := by injection h with h2; exact h2.symm
            subst hout
            exact ⟨(by intro he; cases he), (by intro a b c d he; cases he)⟩
          | some pr =>
            obtain ⟨n2, rand2⟩ := pr
            rw [hc] at h
            try dsimp only at h
            cases hg2 : dget (dpop en n) n2 with
            | none =>
              rw [hg2] at h
              try dsimp only at h
              have hout : out = RestartOut.fail := by injection h with h2; exact h2.symm
              subst hout
              exact ⟨(by intro he; cases he), (by intro a b c d he; cases he)⟩
            | some l2 =>
              rw [hg2] at h
              try dsimp only at h
              exact ih _ nfe n2 rand2 out
                (InvIK_filter_set (dpop en n) nfe n2 l2 hInv2 hg2) h
      · rw [if_neg hl] at h
        cases hc : randChoice rand lst with
        | none =>
          rw [hc] at h
          try dsimp only at h
          have hout : out = RestartOut.fail := by injection h with h2; exact h2.symm
          subst hout
          exact ⟨(by intro he; cases he), (by intro a b c d he; cases he)⟩
        | some pr =>
          obtain ⟨t, rand2⟩ := pr
          rw [hc] at h
          try dsimp only at h
          have hout : out = RestartOut.found en n t rand2 := by
            injection h with h2
            exact h2.symm
          subst hout
          refine ⟨(by intro he; cases he), ?_⟩
          intro a b c d he
          injection he with h1 h2 h3 h4
          subst h1
          exact hInv

/- ### Behaviour of one loop iteration -/

theorem stepRestart_ne_none (en1 nfe1 : List (String × List String))
    (nodes : List (String × Nat)) (num_paths : Nat) (cur_node : String)
    (rand : List Nat) :
    stepRestart en1 nfe1 nodes num_paths cur_node rand ≠ none := by
  intro h
  unfold stepRestart at h
  cases hc : randChoice rand (dkeys (dpop en1 cur_node)) with
  | none => rw [hc] at h; exact absurd h (by simp)
  | some pr =>
    obtain ⟨n1, rand1⟩ := pr
    rw [hc] at h
    try dsimp only at h
    cases hg : dget (dpop en1 cur_node) n1 with
    | none => rw [hg] at h; exact absurd h (by simp)
    | some l1 =>
      rw [hg] at h
      try dsimp only at h
      cases hr : restartLoop
          (dset (dpop en1 cur_node) n1 (l1.filter (fun t => dcontains nfe1 t))).length
          (dset (dpop en1 cur_node) n1 (l1.filter (fun t => dcontains nfe1 t)))
          nfe1 n1 rand1 with
      | none =>
        exact absurd hr (restartLoop_ne_none _ _ _ _ _
          (mem_dkeys_dset_self _ _ _) (Nat.le_refl _))
      | some out =>
        cases out with
        | fail => rw [hr] at h; exact absurd h (by simp)
        | done => rw [hr] at h; exact absurd h (by simp)
        | found en4 n4 t4 rand4 =>
          rw [hr] at h
          try dsimp only at h
          cases hg2 : dget nfe1 t4 with
          | none => rw [hg2] at h; exact absurd h (by simp)
          | some nl =>
            rw [hg2] at h
            try dsimp only at h
            cases nl with
            | nil => exact absurd h (by simp)
            | cons n0 rest => exact absurd h (by simp)

theorem stepRestart_next (en1 nfe1 : List (String × List String))
    (nodes : List (String × Nat)) (num_paths : Nat) (cur_node : String)
    (rand : List Nat) (st2 : WalkState)
    (h : stepRestart en1 nfe1 nodes num_paths cur_node rand =
      some (StepRes.next st2)) :
    st2.nodes_from_edges = nfe1 ∧ st2.nodes = nodes ∧
    dcontains nfe1 st2.cur_tlid = true ∧
    (InvIK en1 nfe1 → dget en1 cur_node = some [] → InvIK st2.edge_node nfe1) := by
  unfold stepRestart at h
  cases hc : randChoice rand (dkeys (dpop en1 cur_node)) with
  | none => rw [hc] at h; exact absurd h (by simp)
  | some pr =>
    obtain ⟨n1, rand1⟩ := pr
    rw [hc] at h
    try dsimp only at h
    cases hg : dget (dpop en1 cur_node) n1 with
    | none => rw [hg] at h; exact absurd h (by simp)
    | some l1 =>
      rw [hg] at h
      try dsimp only at h
      cases hr : restartLoop
          (dset (dpop en1 cur_node) n1 (l1.filter (fun t => dcontains nfe1 t))).length
          (dset (dpop en1 cur_node) n1 (l1.filter (fun t => dcontains nfe1 t)))
          nfe1 n1 rand1 with
      | none => rw [hr] at h; exact absurd h (by simp)
      | some out =>
        cases out with
        | fail => rw [hr] at h; exact absurd h (by simp)
        | done => rw [hr] at h; exact absurd h (by simp)
        | found en4 n4 t4 rand4 =>
          rw [hr] at h
          try dsimp only at h
          cases hg2 : dget nfe1 t4 with
          | none => rw [hg2] at h; exact absurd h (by simp)
          | some nl =>
            rw [hg2] at h
            try dsimp only at h
            cases nl with
            | nil => exact absurd h (by simp)
            | cons n0 rest =>
              try dsimp only at h
              have hst : st2 =
                  { edge_node := en4, nodes_from_edges := nfe1,
                    nodes := nodes, num_paths := num_paths + 1,
                    cur_node := n0, cur_tlid := t4, rand := rand4 } := by
                injection h with h2
                injection h2 with h3
                exact h3.symm
              subst hst
              refine ⟨rfl, rfl, (dcontains_iff nfe1 t4).mpr ⟨n0 :: rest, hg2⟩, ?_⟩
              intro hIK hcur
              have hIK2 : InvIK (dpop en1 cur_node) nfe1 :=
                InvIK_pop_empty_node en1 nfe1 cur_node hIK hcur
              have hIK3 : InvIK
                  (dset (dpop en1 cur_node) n1 (l1.filter (fun t => dcontains nfe1 t)))
                  nfe1 :=
                InvIK_filter_set (dpop en1 cur_node) nfe1 n1 l1 hIK2 hg
              exact (restartLoop_inv _ _ nfe1 n1 rand1 _ hIK3 hr).2 en4 n4 t4 rand4 rfl

theorem stepRestart_stop_ok (en1 nfe1 : List (String × List String))
    (nodes : List (String × Nat)) (num_paths : Nat) (cur_node : String)
    (rand : List Nat) (tbl : List (String × Nat)) (np2 : Nat)
    (en4 nfe4 : List (String × List String))
    (h : stepRestart en1 nfe1 nodes num_paths cur_node rand =
      some (StepRes.stop (WalkOut.ok tbl np2 en4 nfe4))) :
    tbl = nodes ∧ nfe4 = nfe1 ∧
    (InvIK en1 nfe1 → dget en1 cur_node = some [] → nfe1 = []) := by
  unfold stepRestart at h
  cases hc : randChoice rand (dkeys (dpop en1 cur_node)) with
  | none => rw [hc] at h; exact absurd h (by simp)
  | some pr =>
    obtain ⟨n1, rand1⟩ := pr
    rw [hc] at h
    try dsimp only at h
    cases hg : dget (dpop en1 cur_node) n1 with
    | none => rw [hg] at h; exact absurd h (by simp)
    | some l1 =>
      rw [hg] at h
      try dsimp only at h
      cases hr : restartLoop
          (dset (dpop en1 cur_node) n1 (l1.filter (fun t => dcontains nfe1 t))).length
          (dset (dpop en1 cur_node) n1 (l1.filter (fun t => dcontains nfe1 t)))
          nfe1 n1 rand1 with
      | none => rw [hr] at h; exact absurd h (by simp)
      | some out =>
        cases out with
        | fail => rw [hr] at h; exact absurd h (by simp)
        | done =>
          rw [hr] at h
          try dsimp only at h
          have h2 : WalkOut.ok nodes num_paths [] nfe1 = WalkOut.ok tbl np2 en4 nfe4 := by
            injection h with h3
            injection h3 with h4
          injection h2 with e1 e2 e3 e4
          refine ⟨e1.symm, e4.symm, ?_⟩
          intro hIK hcur
          have hIK2 : InvIK (dpop en1 cur_node) nfe1 :=
            InvIK_pop_empty_node en1 nfe1 cur_node hIK hcur
          have hIK3 : InvIK
              (dset (dpop en1 cur_node) n1 (l1.filter (fun t => dcontains nfe1 t)))
              nfe1 :=
            InvIK_filter_set (dpop en1 cur_node) nfe1 n1 l1 hIK2 hg
          exact (restartLoop_inv _ _ nfe1 n1 rand1 _ hIK3 hr).1 rfl
        | found en5 n5 t5 rand5 =>
          rw [hr] at h
          try dsimp only at h
          cases hg2 : dget nfe1 t5 with
          | none => rw [hg2] at h; exact absurd h (by simp)
          | some nl =>
            rw [hg2] at h
            try dsimp only at h
            cases nl with
            | nil => exact absurd h (by simp)
            | cons n0 rest => exact absurd h (by simp)

theorem stepMove_ne_none (data : List (String × Row)) (invcov_data : List (List ℤ))
    (metric : Metric) (en1 nfe1 : List (String × List String))
    (nodes : List (String × Nat)) (num_paths : Nat) (cur_node cur_tlid : String)
    (rand : List Nat) :
    stepMove data invcov_data metric en1 nfe1 nodes num_paths cur_node cur_tlid rand ≠
      none := by
  intro h
  unfold stepMove at h
  cases h1 : find_most_similar cur_tlid cur_node en1 (only_vars data) invcov_data metric with
  | none => rw [h1] at h; exact absurd h (by simp)
  | some o =>
    cases o with
    | none => rw [h1] at h; exact absurd h (by simp)
    | some next_tlid =>
      rw [h1] at h
      try dsimp only at h
      cases h2 : dget nfe1 next_tlid with
      | none => rw [h2] at h; exact absurd h (by simp)
      | some nl =>
        rw [h2] at h
        try dsimp only at h
        cases h3 : listRemove nl cur_node with
        | none => rw [h3] at h; exact absurd h (by simp)
        | some nl2 =>
          rw [h3] at h
          try dsimp only at h
          cases h4 : dget data cur_tlid with
          | none => rw [h4] at h; exact absurd h (by simp)
          | some row1 =>
            rw [h4] at h
            try dsimp only at h
            cases h5 : dget data next_tlid with
            | none => rw [h5] at h; exact absurd h (by simp)
            | some row2 =>
              rw [h5] at h
              try dsimp only at h
              cases h6 : dget (dset nfe1 next_tlid nl2) next_tlid with
              | none => rw [h6] at h; exact absurd h (by simp)
              | some nl3 =>
                rw [h6] at h
                try dsimp only at h
                cases nl3 with
                | nil => exact absurd h (by simp)
                | cons n0 rest => exact absurd h (by simp)

theorem stepMove_next (data : List (String × Row)) (invcov_data : List (List ℤ))
    (metric : Metric) (en1 nfe1 : List (String × List String))
    (nodes : List (String × Nat)) (num_paths : Nat) (cur_node cur_tlid : String)
    (rand : List Nat) (st2 : WalkState)
    (h : stepMove data invcov_data metric en1 nfe1 nodes num_paths cur_node cur_tlid rand =
      some (StepRes.next st2)) :
    st2.edge_node = en1 ∧ st2.nodes_from_edges.length = nfe1.length ∧
    dcontains st2.nodes_from_edges st2.cur_tlid = true ∧
    (∀ p ∈ st2.nodes, p ∈ nodes ∨ p.2 = 0 ∨ p.2 = 1) ∧
    (InvIK en1 nfe1 → InvIK en1 st2.nodes_from_edges) := by
  unfold stepMove at h
  cases h1 : find_most_similar cur_tlid cur_node en1 (only_vars data) invcov_data metric with
  | none => rw [h1] at h; exact absurd h (by simp)
  | some o =>
    cases o with
    | none => rw [h1] at h; exact absurd h (by simp)
    | some next_tlid =>
      rw [h1] at h
      try dsimp only at h
      cases h2 : dget nfe1 next_tlid with
      | none => rw [h2] at h; exact absurd h (by simp)
      | some nl =>
        rw [h2] at h
        try dsimp only at h
        cases h3 : listRemove nl cur_node with
        | none => rw [h3] at h; exact absurd h (by simp)
        | some nl2 =>
          rw [h3] at h
          try dsimp only at h
          cases h4 : dget data cur_tlid with
          | none => rw [h4] at h; exact absurd h (by simp)
          | some row1 =>
            rw [h4] at h
            try dsimp only at h
            cases h5 : dget data next_tlid with
            | none => rw [h5] at h; exact absurd h (by simp)
            | some row2 =>
              rw [h5] at h
              try dsimp only at h
              cases h6 : dget (dset nfe1 next_tlid nl2) next_tlid with
              | none => rw [h6] at h; exact absurd h (by simp)
              | some nl3 =>
                rw [h6] at h
                try dsimp only at h
                cases nl3 with
                | nil => exact absurd h (by simp)
                | cons n0 rest =>
                  try dsimp only at h
                  have hst : st2 =
                      { edge_node := en1,
                        nodes_from_edges := dset nfe1 next_tlid nl2,
                        nodes := dset nodes cur_node
                          (if row1.fullname = row2.fullname then 1 else 0),
                        num_paths := num_paths,
                        cur_node := n0, cur_tlid := next_tlid, rand := rand } := by
                    injection h with h7
                    injection h7 with h8
                    exact h8.symm
                  subst hst
                  have hcont : dcontains nfe1 next_tlid = true :=
                    (dcontains_iff nfe1 next_tlid).mpr ⟨nl, h2⟩
                  have hnl2 : nl2 = n0 :: rest := by
                    rw [dget_dset, if_pos rfl] at h6
                    injection h6 with h7
                  refine ⟨rfl, length_dset_of_contains nfe1 next_tlid nl2 hcont,
                    dcontains_dset_self _ _ _, ?_, ?_⟩
                  · intro p hp
                    rcases mem_dset_pair nodes cur_node _ p hp with hmem | heq
                    · exact Or.inl hmem
                    · right
                      rw [heq]
                      by_cases hf : row1.fullname = row2.fullname
                      · rw [if_pos hf]; exact Or.inr rfl
                      · rw [if_neg hf]; exact Or.inl rfl
                  · intro hIK
                    exact InvIK_shrink_value en1 nfe1 next_tlid nl nl2 cur_node hIK h2 h3
                      (by rw [hnl2]; simp)

theorem stepMove_stop_err (data : List (String × Row)) (invcov_data : List (List ℤ))
    (metric : Metric) (en1 nfe1 : List (String × List String))
    (nodes : List (String × Nat)) (num_paths : Nat) (cur_node cur_tlid : String)
    (rand : List Nat) (out : WalkOut)
    (h : stepMove data invcov_data metric en1 nfe1 nodes num_paths cur_node cur_tlid rand =
      some (StepRes.stop out)) :
    out = WalkOut.err := by
  unfold stepMove at h
  cases h1 : find_most_similar cur_tlid cur_node en1 (only_vars data) invcov_data metric with
  | none =>
    rw [h1] at h
    try dsimp only at h
    injection h with h2
    injection h2 with h3
    exact h3.symm
  | some o =>
    cases o with
    | none =>
      rw [h1] at h
      try dsimp only at h
      injection h with h2
      injection h2 with h3
      exact h3.symm
    | some next_tlid =>
      rw [h1] at h
      try dsimp only at h
      cases h2 : dget nfe1 next_tlid with
      | none =>
        rw [h2] at h
        try dsimp only at h
        injection h with h7
        injection h7 with h8
        exact h8.symm
      | some nl =>
        rw [h2] at h
        try dsimp only at h
        cases h3 : listRemove nl cur_node with
        | none =>
          rw [h3] at h
          try dsimp only at h
          injection h with h7
          injection h7 with h8
          exact h8.symm
        | some nl2 =>
          rw [h3] at h
          try dsimp only at h
          cases h4 : dget data cur_tlid with
          | none =>
            rw [h4] at h
            try dsimp only at h
            injection h with h7
            injection h7 with h8
            exact h8.symm
          | some row1 =>
            rw [h4] at h
            try dsimp only at h
            cases h5 : dget data next_tlid with
            | none =>
              rw [h5] at h
              try dsimp only at h
              injection h with h7
              injection h7 with h8
              exact h8.symm
            | some row2 =>
              rw [h5] at h
              try dsimp only at h
              cases h6 : dget (dset nfe1 next_tlid nl2) next_tlid with
              | none =>
                rw [h6] at h
                try dsimp only at h
                injection h with h7
                injection h7 with h8
                exact h8.symm
              | some nl3 =>
                rw [h6] at h
                try dsimp only at h
                cases nl3 with
                | nil =>
                  try dsimp only at h
                  injection h with h7
                  injection h7 with h8
                  exact h8.symm
                | cons n0 rest => exact absurd h (by simp)

theorem walkStep_ne_none (data : List (String × Row)) (invcov_data : List (List ℤ))
    (metric : Metric) (st : WalkState) :
    walkStep data invcov_data metric st ≠ none := by
  intro h
  unfold walkStep at h
  cases hg : dget st.edge_node st.cur_node with
  | none => rw [hg] at h; exact absurd h (by simp)
  | some cur_lst =>
    rw [hg] at h
    try dsimp only at h
    by_cases hf : (cur_lst.filter
        (fun t => dcontains (dpop st.nodes_from_edges st.cur_tlid) t)).length = 0
    · rw [if_pos hf] at h
      exact stepRestart_ne_none _ _ _ _ _ _ h
    · rw [if_neg hf] at h
      exact stepMove_ne_none _ _ _ _ _ _ _ _ _ _ h

theorem walkStep_next (data : List (String × Row)) (invcov_data : List (List ℤ))
    (metric : Metric) (st st2 : WalkState)
    (h : walkStep data invcov_data metric st = some (StepRes.next st2)) :
    st2.nodes_from_edges.length ≤ st.nodes_from_edges.length ∧
    (dcontains st.nodes_from_edges st.cur_tlid = true →
      st2.nodes_from_edges.length < st.nodes_from_edges.length) ∧
    dcontains st2.nodes_from_edges st2.cur_tlid = true := by
  unfold walkStep at h
  cases hg : dget st.edge_node st.cur_node with
  | none => rw [hg] at h; exact absurd h (by simp)
  | some cur_lst =>
    rw [hg] at h
    try dsimp only at h
    by_cases hf : (cur_lst.filter
        (fun t => dcontains (dpop st.nodes_from_edges st.cur_tlid) t)).length = 0
    · rw [if_pos hf] at h
      obtain ⟨he1, _, hcont, _⟩ := stepRestart_next _ _ _ _ _ _ _ h
      refine ⟨?_, ?_, ?_⟩
      · rw [he1]; exact length_dpop_le _ _
      · intro hc; rw [he1]; exact length_dpop_lt_of_contains _ _ hc
      · rw [he1]; exact hcont
    · rw [if_neg hf] at h
      obtain ⟨_, hlen, hcont, _, _⟩ := stepMove_next _ _ _ _ _ _ _ _ _ _ _ h
      refine ⟨?_, ?_, hcont⟩
      · rw [hlen]; exact length_dpop_le _ _
      · intro hc; rw [hlen]; exact length_dpop_lt_of_contains _ _ hc

theorem walkStep_inv (data : List (String × Row)) (invcov_data : List (List ℤ))
    (metric : Metric) (st : WalkState) (res : StepRes)
    (hIK : InvIK st.edge_node st.nodes_from_edges)
    (h : walkStep data invcov_data metric st = some res) :
    (∀ st2, res = StepRes.next st2 → InvIK st2.edge_node st2.nodes_from_edges) ∧
    (∀ tbl np2 en4 nfe4,
      res = StepRes.stop (WalkOut.ok tbl np2 en4 nfe4) → nfe4 = []) := by
  unfold walkStep at h
  cases hg : dget st.edge_node st.cur_node with
  | none =>
    rw [hg] at h
    have hres : res = StepRes.stop WalkOut.err := by injection h with h2; exact h2.symm
    subst hres
    refine ⟨(by intro st2 he; cases he), ?_⟩
    intro a b c d he
    injection he with h3
    exact absurd h3 (by simp)
  | some cur_lst =>
    rw [hg] at h
    try dsimp only at h
    have hIK1 : InvIK
        (dset st.edge_node st.cur_node (cur_lst.filter
          (fun t => dcontains (dpop st.nodes_from_edges st.cur_tlid) t)))
        (dpop st.nodes_from_edges st.cur_tlid) :=
      InvIK_filter_set _ _ _ _
        (InvIK_pop_nfe st.edge_node st.nodes_from_edges st.cur_tlid hIK) hg
    by_cases hf : (cur_lst.filter
        (fun t => dcontains (dpop st.nodes_from_edges st.cur_tlid) t)).length = 0
    · rw [if_pos hf] at h
      have hcur : dget
          (dset st.edge_node st.cur_node (cur_lst.filter
            (fun t => dcontains (dpop st.nodes_from_edges st.cur_tlid) t)))
          st.cur_node = some [] := by
        rw [dget_dset, if_pos rfl, List.length_eq_zero.mp hf]
      constructor
      · intro st2 he
        rw [he] at h
        obtain ⟨he1, _, _, hinv⟩ := stepRestart_next _ _ _ _ _ _ _ h
        rw [he1]
        exact hinv hIK1 hcur
      · intro tbl np2 en4 nfe4 he
        rw [he] at h
        obtain ⟨_, he4, hnil⟩ := stepRestart_stop_ok _ _ _ _ _ _ _ _ _ _ h
        rw [he4]
        exact hnil hIK1 hcur
    · rw [if_neg hf] at h
      constructor
      · intro st2 he
        rw [he] at h
        obtain ⟨he1, _, _, _, hinv⟩ := stepMove_next _ _ _ _ _ _ _ _ _ _ _ h
        rw [he1]
        exact hinv hIK1
      · intro tbl np2 en4 nfe4 he
        rw [he] at h
        have := stepMove_stop_err _ _ _ _ _ _ _ _ _ _ _ h
        exact absurd this (by simp)

theorem walkStep_nodes (data : List (String × Row)) (invcov_data : List (List ℤ))
    (metric : Metric) (st : WalkState) (res : StepRes)
    (h : walkStep data invcov_data metric st = some res) :
    (∀ st2, res = StepRes.next st2 →
      ∀ p ∈ st2.nodes, p ∈ st.nodes ∨ p.2 = 0 ∨ p.2 = 1) ∧
    (∀ tbl np2 en4 nfe4,
      res = StepRes.stop (WalkOut.ok tbl np2 en4 nfe4) → tbl = st.nodes) := by
  unfold walkStep at h
  cases hg : dget st.edge_node st.cur_node with
  | none =>
    rw [hg] at h
    have hres : res = StepRes.stop WalkOut.err := by injection h with h2; exact h2.symm
    subst hres
    refine ⟨(by intro st2 he; cases he), ?_⟩
    intro a b c d he
    injection he with h3
    exact absurd h3 (by simp)
  | some cur_lst =>
    rw [hg] at h
    try dsimp only at h
    by_cases hf : (cur_lst.filter
        (fun t => dcontains (dpop st.nodes_from_edges st.cur_tlid) t)).length = 0
    · rw [if_pos hf] at h
      constructor
      · intro st2 he
        rw [he] at h
        obtain ⟨_, he2, _, _⟩ := stepRestart_next _ _ _ _ _ _ _ h
        intro p hp
        exact Or.inl (he2 ▸ hp)
      · intro tbl np2 en4 nfe4 he
        rw [he] at h
        exact (stepRestart_stop_ok _ _ _ _ _ _ _ _ _ _ h).1
    · rw [if_neg hf] at h
      constructor
      · intro st2 he
        rw [he] at h
        exact (stepMove_next _ _ _ _ _ _ _ _ _ _ _ h).2.2.2.1
      · intro tbl np2 en4 nfe4 he
        rw [he] at h
        have := stepMove_stop_err _ _ _ _ _ _ _ _ _ _ _ h
        exact absurd this (by simp)

/- ### Behaviour of the whole loop -/

theorem walkAux_ne_none (data : List (String × Row)) (invcov_data : List (List ℤ))
    (metric : Metric) :
    ∀ (fuel : Nat) (st : WalkState),
      (st.nodes_from_edges.length + 1 ≤ fuel ∨
        (st.nodes_from_edges.length ≤ fuel ∧
          dcontains st.nodes_from_edges st.cur_tlid = true)) →
      walkAux data invcov_data metric fuel st ≠ none := by
  intro fuel
  induction fuel with
  | zero =>
    intro st hyp
    exfalso
    rcases hyp with h1 | ⟨h2, h3⟩
    · omega
    · have hnil : st.nodes_from_edges = [] :=
        List.length_eq_zero.mp (Nat.le_zero.mp h2)
      rw [dcontains_iff] at h3
      obtain ⟨v, hv⟩ := h3
      rw [hnil] at hv
      exact absurd hv (by simp [dget])
  | succ fuel ih =>
    intro st hyp h
    unfold walkAux at h
    by_cases hz : st.nodes_from_edges.length = 0
    · rw [if_pos hz] at h
      exact absurd h (by simp)
    · rw [if_neg hz] at h
      cases hs : walkStep data invcov_data metric st with
      | none => exact walkStep_ne_none data invcov_data metric st hs
      | some sr =>
        rw [hs] at h
        try dsimp only at h
        cases sr with
        | stop out =>
          try dsimp only at h
          exact absurd h (by simp)
        | next st2 =>
          try dsimp only at h
          refine ih st2 ?_ h
          obtain ⟨hle, hlt, hc2⟩ := walkStep_next data invcov_data metric st st2 hs
          rcases hyp with h1 | ⟨h2, h3⟩
          · exact Or.inr ⟨by omega, hc2⟩
          · have := hlt h3
            exact Or.inr ⟨by omega, hc2⟩

theorem walkAux_inv (data : List (String × Row)) (invcov_data : List (List ℤ))
    (metric : Metric) :
    ∀ (fuel : Nat) (st : WalkState) (tbl : List (String × Nat)) (np : Nat)
      (en4 nfe4 : List (String × List String)),
      InvIK st.edge_node st.nodes_from_edges →
      walkAux data invcov_data metric fuel st = some (WalkOut.ok tbl np en4 nfe4) →
      nfe4 = [] := by
  intro fuel
  induction fuel with
  | zero =>
    intro st tbl np en4 nfe4 _ h
    exact absurd h (by simp [walkAux])
  | succ fuel ih =>
    intro st tbl np en4 nfe4 hIK h
    unfold walkAux at h
    by_cases hz : st.nodes_from_edges.length = 0
    · rw [if_pos hz] at h
      try dsimp only at h
      have h2 : WalkOut.ok st.nodes st.num_paths st.edge_node st.nodes_from_edges =
          WalkOut.ok tbl np en4 nfe4 := by injection h
      injection h2 with e1 e2 e3 e4
      rw [← e4]
      exact List.length_eq_zero.mp hz
    · rw [if_neg hz] at h
      cases hs : walkStep data invcov_data metric st with
      | none => rw [hs] at h; exact absurd h (by simp)
      | some sr =>
        rw [hs] at h
        try dsimp only at h
        cases sr with
        | stop out =>
          try dsimp only at h
          have hout : out = WalkOut.ok tbl np en4 nfe4 := by injection h
          exact (walkStep_inv data invcov_data metric st _ hIK hs).2 tbl np en4 nfe4
            (by rw [hout])
        | next st2 =>
          try dsimp only at h
          exact ih st2 tbl np en4 nfe4
            ((walkStep_inv data invcov_data metric st _ hIK hs).1 st2 rfl) h

theorem walkAux_nodes (data : List (String × Row)) (invcov_data : List (List ℤ))
    (metric : Metric) :
    ∀ (fuel : Nat) (st : WalkState) (tbl : List (String × Nat)) (np : Nat)
      (en4 nfe4 : List (String × List String)),
      (∀ p ∈ st.nodes, p.2 = 0 ∨ p.2 = 1) →
      walkAux data invcov_data metric fuel st = some (WalkOut.ok tbl np en4 nfe4) →
      ∀ p ∈ tbl, p.2 = 0 ∨ p.2 = 1 := by
  intro fuel
  induction fuel with
  | zero =>
    intro st tbl np en4 nfe4 _ h
    exact absurd h (by simp [walkAux])
  | succ fuel ih =>
    intro st tbl np en4 nfe4 hprop h
    unfold walkAux at h
    by_cases hz : st.nodes_from_edges.length = 0
    · rw [if_pos hz] at h
      try dsimp only at h
      have h2 : WalkOut.ok st.nodes st.num_paths st.edge_node st.nodes_from_edges =
          WalkOut.ok tbl np en4 nfe4 := by injection h
      injection h2 with e1 e2 e3 e4
      rw [← e1]
      exact hprop
    · rw [if_neg hz] at h
      cases hs : walkStep data invcov_data metric st with
      | none => rw [hs] at h; exact absurd h (by simp)
      | some sr =>
        rw [hs] at h
        try dsimp only at h
        cases sr with
        | stop out =>
          try dsimp only at h
          have hout : out = WalkOut.ok tbl np en4 nfe4 := by injection h
          have htbl : tbl = st.nodes :=
            (walkStep_nodes data invcov_data metric st _ hs).2 tbl np en4 nfe4
              (by rw [hout])
          rw [htbl]
          exact hprop
        | next st2 =>
          try dsimp only at h
          refine ih st2 tbl np en4 nfe4 ?_ h
          intro p hp
          rcases (walkStep_nodes data invcov_data metric st _ hs).1 st2 rfl p hp with
            hmem | hv
          · exact hprop p hmem
          · exact hv

theorem walk_network_ne_none (fuel : Nat)
    (edge_node nodes_from_edges : List (String × List String))
    (data : List (String × Row)) (invcov_data : List (List ℤ)) (metric : Metric)
    (rand : List Nat) (hfuel : nodes_from_edges.length + 1 ≤ fuel) :
    walk_network fuel edge_node nodes_from_edges data invcov_data metric rand ≠
      none := by
  intro h
  unfold walk_network at h
  cases h1 : randChoice rand (dkeys edge_node) with
  | none => rw [h1] at h; exact absurd h (by simp)
  | some pr =>
    obtain ⟨cur_node, rand1⟩ := pr
    rw [h1] at h
    try dsimp only at h
    cases h2 : dget edge_node cur_node with
    | none => rw [h2] at h; exact absurd h (by simp)
    | some lst =>
      rw [h2] at h
      try dsimp only at h
      cases h3 : randChoice rand1 lst with
      | none => rw [h3] at h; exact absurd h (by simp)
      | some pr2 =>
        obtain ⟨cur_tlid, rand2⟩ := pr2
        rw [h3] at h
        try dsimp only at h
        exact walkAux_ne_none data invcov_data metric fuel _ (Or.inl hfuel) h

theorem walk_network_ok_elim (fuel : Nat)
    (edge_node nodes_from_edges : List (String × List String))
    (data : List (String × Row)) (invcov_data : List (List ℤ)) (metric : Metric)
    (rand : List Nat) (tbl : List (String × Nat)) (np : Nat)
    (en4 nfe4 : List (String × List String))
    (h : walk_network fuel edge_node nodes_from_edges data invcov_data metric rand =
      some (WalkOut.ok tbl np en4 nfe4)) :
    ∃ cur_node cur_tlid rand2,
      walkAux data invcov_data metric fuel
        { edge_node := edge_node, nodes_from_edges := nodes_from_edges,
          nodes := [], num_paths := 1,
          cur_node := cur_node, cur_tlid := cur_tlid, rand := rand2 } =
        some (WalkOut.ok tbl np en4 nfe4) := by
  unfold walk_network at h
  cases h1 : randChoice rand (dkeys edge_node) with
  | none =>
    rw [h1] at h
    have h2 : WalkOut.err = WalkOut.ok tbl np en4 nfe4 := by injection h
    exact absurd h2 (by simp)
  | some pr =>
    obtain ⟨cur_node, rand1⟩ := pr
    rw [h1] at h
    try dsimp only at h
    cases h2 : dget edge_node cur_node with
    | none =>
      rw [h2] at h
      have h3 : WalkOut.err = WalkOut.ok tbl np en4 nfe4 := by injection h
      exact absurd h3 (by simp)
    | some lst =>
      rw [h2] at h
      try dsimp only at h
      cases h3 : randChoice rand1 lst with
      | none =>
        rw [h3] at h
        have h4 : WalkOut.err = WalkOut.ok tbl np en4 nfe4 := by injection h
        exact absurd h4 (by simp)
      | some pr2 =>
        obtain ⟨cur_tlid, rand2⟩ := pr2
        rw [h3] at h
        try dsimp only at h
        exact ⟨cur_node, cur_tlid, rand2, h⟩

/-- C4: for every input graph built by create_node_dict, walk_network
terminates: each iteration of the main loop pops the current segment
from nodes_from_edges — strictly decreasing the remaining-segment count
from the second iteration on — so a fuel budget of one more than the
number of segments is never exhausted (the run ends by the loop
condition failing, by the restart search exhausting the node set, or
with a propagated error; never by running forever). -/
theorem walk_network_terminates (edges : List EdgeRow) (data : List (String × Row))
    (invcov_data : List (List ℤ)) (metric : Metric) (rand : List Nat) :
    ¬ (walk_network ((create_node_dict (create_edge_node_df edges)).2.length + 1)
        (create_node_dict (create_edge_node_df edges)).1
        (create_node_dict (create_edge_node_df edges)).2
        data invcov_data metric rand = none) :=
  walk_network_ne_none _ _ _ data invcov_data metric rand (Nat.le_refl _)

/- ### The initial graph satisfies the invariant -/

theorem InvIK_create_node_dict (edges : List EdgeRow) :
    InvIK (create_node_dict (create_edge_node_df edges)).1
      (create_node_dict (create_edge_node_df edges)).2 := by
  intro t nl h
  have h2 : dget (groupBy (create_edge_node_df edges)) t = some nl := h
  rw [dget_groupBy] at h2
  by_cases hm : t ∈ (create_edge_node_df edges).map Prod.fst
  · rw [if_pos hm] at h2
    have hnl : nl = valuesOf (create_edge_node_df edges) t := by
      injection h2 with h3
      exact h3.symm
    subst hnl
    refine ⟨valuesOf_ne_nil _ t hm, ?_⟩
    intro n hn
    have hpair : (t, n) ∈ create_edge_node_df edges := (mem_valuesOf _ t n).mp hn
    have hswap : (n, t) ∈ (create_edge_node_df edges).map (fun p => (p.2, p.1)) :=
      List.mem_map_of_mem (fun p => (p.2, p.1)) hpair
    have hmem2 : n ∈ ((create_edge_node_df edges).map (fun p => (p.2, p.1))).map
        Prod.fst := by
      rw [List.mem_map]
      exact ⟨(n, t), hswap, rfl⟩
    refine ⟨dedupFirst (valuesOf ((create_edge_node_df edges).map
      (fun p => (p.2, p.1))) n), ?_, ?_⟩
    · show dget ((groupBy ((create_edge_node_df edges).map (fun p => (p.2, p.1)))).map
        (fun p => (p.1, dedupFirst p.2))) n = _
      rw [dget_map_values, dget_groupBy, if_pos hmem2]
      rfl
    · rw [mem_dedupFirst, mem_valuesOf]
      exact hswap
  · rw [if_neg hm] at h2
    exact absurd h2 (by simp)

theorem create_node_dict_two_refs (edges : List EdgeRow) (e : EdgeRow)
    (hnd : (edges.map EdgeRow.tlid).Nodup) (he : e ∈ edges) :
    dget (create_node_dict (create_edge_node_df edges)).2 e.tlid =
      some [e.tnidf, e.tnidt] := by
  show dget (groupBy (create_edge_node_df edges)) e.tlid = _
  rw [dget_groupBy]
  have hm : e.tlid ∈ (create_edge_node_df edges).map Prod.fst := by
    unfold create_edge_node_df
    rw [List.map_append, List.map_map]
    exact List.mem_append.mpr (Or.inl
      (List.mem_map_of_mem (Prod.fst ∘ fun e2 : EdgeRow => (e2.tlid, e2.tnidf)) he))
  rw [if_pos hm]
  congr 1
  unfold valuesOf create_edge_node_df
  rw [List.filterMap_append, List.filterMap_map, List.filterMap_map]
  have hf1 : ((fun p : String × String => if p.1 = e.tlid then some p.2 else none) ∘
      (fun e2 : EdgeRow => (e2.tlid, e2.tnidf))) =
      (fun e2 : EdgeRow => if e2.tlid = e.tlid then some (EdgeRow.tnidf e2) else none) :=
    rfl
  have hf2 : ((fun p : String × String => if p.1 = e.tlid then some p.2 else none) ∘
      (fun e2 : EdgeRow => (e2.tlid, e2.tnidt))) =
      (fun e2 : EdgeRow => if e2.tlid = e.tlid then some (EdgeRow.tnidt e2) else none) :=
    rfl
  rw [hf1, hf2, filterMap_tlid_single edges e EdgeRow.tnidf hnd he,
    filterMap_tlid_single edges e EdgeRow.tnidt hnd he]
  rfl

/-- C8: for a segment table with unique TLIDs and distinct endpoints,
the edge-to-nodes mapping built by create_node_dict associates every
segment with exactly its two node references [from-node, to-node], and
whenever walk_network returns normally (WalkOut.ok), the final
nodes_from_edges mapping is empty, so the segment retains zero node
references (the walk only ever removes references). -/
theorem nodes_from_edges_two_then_zero (edges : List EdgeRow)
    (data : List (String × Row)) (invcov_data : List (List ℤ)) (metric : Metric)
    (rand : List Nat) (fuel : Nat) (e : EdgeRow) (tbl : List (String × Nat))
    (np : Nat) (en4 nfe4 : List (String × List String))
    (hnd : (edges.map EdgeRow.tlid).Nodup)
    (hdistinct : ∀ e2 ∈ edges, ¬ e2.tnidf = e2.tnidt)
    (he : e ∈ edges)
    (hrun : walk_network fuel (create_node_dict (create_edge_node_df edges)).1
        (create_node_dict (create_edge_node_df edges)).2 data invcov_data metric rand =
        some (WalkOut.ok tbl np en4 nfe4)) :
    dget (create_node_dict (create_edge_node_df edges)).2 e.tlid =
      some [e.tnidf, e.tnidt] ∧
    dget nfe4 e.tlid = none := by
  refine ⟨create_node_dict_two_refs edges e hnd he, ?_⟩
  obtain ⟨cur_node, cur_tlid, rand2, hax⟩ :=
    walk_network_ok_elim fuel _ _ data invcov_data metric rand tbl np en4 nfe4 hrun
  have hnil : nfe4 = [] :=
    walkAux_inv data invcov_data metric fuel _ tbl np en4 nfe4
      (InvIK_create_node_dict edges) hax
  rw [hnil]
  rfl

/-- C8 witness: the two-then-zero property at a concrete one-edge
graph whose walk completes. -/
theorem nodes_from_edges_two_then_zero_witness :
    dget (create_node_dict (create_edge_node_df
        [{ tlid := "T1", tnidf := "A", tnidt := "B" }])).2 "T1" = some ["A", "B"] ∧
    dget ([] : List (String × List String)) "T1" = none :=
  nodes_from_edges_two_then_zero [{ tlid := "T1", tnidf := "A", tnidt := "B" }]
    [("T1", { vec := [0], fullname := "X" })] [] Metric.e [0, 0, 0] 2
    { tlid := "T1", tnidf := "A", tnidt := "B" } [] 1 [] []
    (by decide) (by decide) (by decide) rfl

/-- C10: every indicator value in the decision table returned by
walk_network is exactly 0 or 1 (the {'street': 0} / {'street': 1}
records of source lines 328-332), and recording a decision for a node
that already has one overwrites it: a dict assignment makes the most
recent value the one retrieved for that key. -/
theorem walk_decision_values (fuel : Nat)
    (edge_node nodes_from_edges : List (String × List String))
    (data : List (String × Row)) (invcov_data : List (List ℤ)) (metric : Metric)
    (rand : List Nat) (tbl : List (String × Nat)) (np : Nat)
    (en4 nfe4 : List (String × List String)) (p : String × Nat)
    (d : List (String × Nat)) (k : String) (v : Nat)
    (hrun : walk_network fuel edge_node nodes_from_edges data invcov_data metric rand =
      some (WalkOut.ok tbl np en4 nfe4))
    (hp : p ∈ tbl) :
    (p.2 = 0 ∨ p.2 = 1) ∧ dget (dset d k v) k = some v := by
  constructor
  · obtain ⟨cur_node, cur_tlid, rand2, hax⟩ :=
      walk_network_ok_elim fuel _ _ data invcov_data metric rand tbl np en4 nfe4 hrun
    refine walkAux_nodes data invcov_data metric fuel _ tbl np en4 nfe4 ?_ hax p hp
    intro q hq
    exact absurd hq (by simp)
  · rw [dget_dset, if_pos rfl]

/-- C10 witness: the decision recorded in a concrete two-edge walk is
the same-street indicator 1, and dict assignment overwrites. -/
theorem walk_decision_values_witness :
    ((("B", 1) : String × Nat).2 = 0 ∨ (("B", 1) : String × Nat).2 = 1) ∧
    dget (dset ([] : List (String × Nat)) "x" 0) "x" = some 0 :=
  walk_decision_values 3
    (create_node_dict (create_edge_node_df
      [{ tlid := "E1", tnidf := "A", tnidt := "B" },
       { tlid := "E2", tnidf := "B", tnidt := "C" }])).1
    (create_node_dict (create_edge_node_df
      [{ tlid := "E1", tnidf := "A", tnidt := "B" },
       { tlid := "E2", tnidf := "B", tnidt := "C" }])).2
    [("E1", { vec := [0], fullname := "X" }), ("E2", { vec := [1], fullname := "X" })]
    [] Metric.e [1, 0, 0, 0] [("B", 1)] 1 [] [] ("B", 1) [] "x" 0 rfl (by decide)

/-- C3 counterexample: on a graph with two disconnected one-edge
components the walk terminates normally, but the returned decision
table is EMPTY — in particular it has no entry for node "A" although
"A" is a node of the graph — refuting "the decision table contains an
entry for every node of both components" (the printed path count is 2,
and num_paths is printed rather than being part of the Python return
value). -/
theorem walk_two_components_missing_nodes :
    walk_network 3
      (create_node_dict (create_edge_node_df
        [{ tlid := "E1", tnidf := "A", tnidt := "B" },
         { tlid := "E2", tnidf := "C", tnidt := "D" }])).1
      (create_node_dict (create_edge_node_df
        [{ tlid := "E1", tnidf := "A", tnidt := "B" },
         { tlid := "E2", tnidf := "C", tnidt := "D" }])).2
      [("E1", { vec := [0], fullname := "X" }), ("E2", { vec := [1], fullname := "Y" })]
      [] Metric.e [0, 0, 0, 0, 0, 0] = some (WalkOut.ok [] 2 [] []) ∧
    dget (create_node_dict (create_edge_node_df
        [{ tlid := "E1", tnidf := "A", tnidt := "B" },
         { tlid := "E2", tnidf := "C", tnidt := "D" }])).1 "A" = some ["E1"] ∧
    dget ([] : List (String × Nat)) "A" = none :=
  ⟨rfl, rfl, rfl⟩

/-- C3 (amended): on the two-disconnected-component graph the walk
reaches Done and returns the accumulated decision records with every
segment consumed, the Restarting state was entered at least once (the
printed path count num_paths is 2), but the decision table covers only
nodes from which a similarity move was made — here it is empty. -/
theorem walk_two_components_restarts (tbl : List (String × Nat)) (np : Nat)
    (en4 nfe4 : List (String × List String))
    (h : walk_network 3
        (create_node_dict (create_edge_node_df
          [{ tlid := "E1", tnidf := "A", tnidt := "B" },
           { tlid := "E2", tnidf := "C", tnidt := "D" }])).1
        (create_node_dict (create_edge_node_df
          [{ tlid := "E1", tnidf := "A", tnidt := "B" },
           { tlid := "E2", tnidf := "C", tnidt := "D" }])).2
        [("E1", { vec := [0], fullname := "X" }),
         ("E2", { vec := [1], fullname := "Y" })]
        [] Metric.e [0, 0, 0, 0, 0, 0] = some (WalkOut.ok tbl np en4 nfe4)) :
    2 ≤ np ∧ nfe4 = [] ∧ tbl = [] := by
  have hrun : walk_network 3
      (create_node_dict (create_edge_node_df
        [{ tlid := "E1", tnidf := "A", tnidt := "B" },
         { tlid := "E2", tnidf := "C", tnidt := "D" }])).1
      (create_node_dict (create_edge_node_df
        [{ tlid := "E1", tnidf := "A", tnidt := "B" },
         { tlid := "E2", tnidf := "C", tnidt := "D" }])).2
      [("E1", { vec := [0], fullname := "X" }),
       ("E2", { vec := [1], fullname := "Y" })]
      [] Metric.e [0, 0, 0, 0, 0, 0] = some (WalkOut.ok [] 2 [] []) := rfl
  rw [hrun] at h
  have h2 : WalkOut.ok [] 2 [] [] = WalkOut.ok tbl np en4 nfe4 := by injection h
  injection h2 with e1 e2 e3 e4
  exact ⟨by omega, e4.symm, e1.symm⟩

/-- C3 witness: the amended two-component behaviour at the concrete
run. -/
theorem walk_two_components_restarts_witness :
    2 ≤ 2 ∧ ([] : List (String × List String)) = [] ∧
    ([] : List (String × Nat)) = [] :=
  walk_two_components_restarts [] 2 [] [] rfl

/-- C4 witness: the fuel bound applied at a concrete one-edge graph. -/
theorem walk_network_terminates_witness :
    ¬ (walk_network ((create_node_dict (create_edge_node_df
          [{ tlid := "T1", tnidf := "A", tnidt := "B" }])).2.length + 1)
        (create_node_dict (create_edge_node_df
          [{ tlid := "T1", tnidf := "A", tnidt := "B" }])).1
        (create_node_dict (create_edge_node_df
          [{ tlid := "T1", tnidf := "A", tnidt := "B" }])).2
        [("T1", { vec := [0], fullname := "X" })] [] Metric.e [0] = none) :=
  walk_network_terminates [{ tlid := "T1", tnidf := "A", tnidt := "B" }]
    [("T1", { vec := [0], fullname := "X" })] [] Metric.e [0]

end StreetDemo
